import Mathlib

/-! Verification of the Hotones ECS core (src/Hotones/src/include/ECS/):
`Entity.hpp` (packed 32-bit handles), `ComponentPool.hpp` (sparse-set
storage) and `Registry.hpp` (entity lifecycle, component API, queries).

All machine integers are modelled as `Nat` with explicit `% 2^32`
wherever the C++ `uint32_t` arithmetic can wrap.  `std::vector` becomes
`List`; reads use `List.getD` (in-bounds reads are the only ones that
occur on well-formed states).  Fallible paths — failed `assert`s and
C++ undefined behaviour (out-of-bounds writes, `pop_back` on an empty
vector, wraparound in `resize`) — return `none`.
-/

namespace Hotones

/-! Part: Entity.hpp — packed 32-bit entity handles

`EntityId` packs `index (bits 0-19)` and `generation (bits 20-31)`.
Handles are `Nat`s below `2^32`. -/

def U32 : Nat := 4294967296

def INDEX_BITS : Nat := 20

def GEN_BITS : Nat := 12

/-- C++ `(1u << INDEX_BITS) - 1u` -/
def INDEX_MASK : Nat := 1048575

/-- C++ `(1u << GEN_BITS) - 1u` -/
def GEN_MASK : Nat := 4095

/-- C++ `id & INDEX_MASK` -/
def EntityIndex (id : Nat) : Nat := id % 1048576

/-- C++ `(id >> INDEX_BITS) & GEN_MASK` -/
def EntityGeneration (id : Nat) : Nat := (id / 1048576) % 4096

/-- C++ `((gen & GEN_MASK) << INDEX_BITS) | (idx & INDEX_MASK)`; the two
fields do not overlap, so the bitwise-or is a sum. -/
def MakeEntity (idx gen : Nat) : Nat := (gen % 4096) * 1048576 + idx % 1048576

/-! Part: ComponentPool.hpp — sparse-set storage -/

/-- C++ `static constexpr uint32_t EMPTY = ~0u` -/
def EMPTY : Nat := 4294967295

structure Pool (α : Type) where
  sparse : List Nat
  dense : List Nat
  data : List α
deriving DecidableEq

namespace Pool

def empty {α : Type} : Pool α := ⟨[], [], []⟩

/-- C++ `Size()` — `m_dense.size()` -/
def size {α : Type} (p : Pool α) : Nat := p.dense.length

/-- C++ `Has(entityIdx)`:
`entityIdx < m_sparse.size() && m_sparse[entityIdx] != EMPTY` -/
def Has {α : Type} (p : Pool α) (entityIdx : Nat) : Bool :=
  decide (entityIdx < p.sparse.length) && decide (p.sparse.getD entityIdx 0 ≠ EMPTY)

/-- C++ `Emplace(entityIdx, v)`.  The resize target `entityIdx + 1` is
computed in `unsigned` arithmetic, so `entityIdx = 2^32 - 1` wraps the
target to `0` and the subsequent `m_sparse[entityIdx]` write is
out of bounds (undefined behaviour) — modelled as `none`, as is a
violation of the `assert(!Has(entityIdx))`. -/
def emplace {α : Type} (entityIdx : Nat) (v : α) (p : Pool α) : Option (Pool α) :=
  if entityIdx + 1 ≥ U32 then none
  else
    let sparse1 :=
      if p.sparse.length ≤ entityIdx then
        p.sparse ++ List.replicate (entityIdx + 1 - p.sparse.length) EMPTY
      else p.sparse
    if entityIdx < sparse1.length ∧ sparse1.getD entityIdx 0 ≠ EMPTY then none
    else
      some { sparse := sparse1.set entityIdx (p.dense.length % U32)
           , dense := p.dense ++ [entityIdx]
           , data := p.data ++ [v] }

/-- C++ `Remove(entityIdx)`: no-op when `!Has`; otherwise swap-with-last
and pop.  Out-of-bounds accesses and `pop_back` on an empty vector are
undefined behaviour — `none`.  (On well-formed pools those branches are
unreachable.) -/
def remove {α : Type} (entityIdx : Nat) (p : Pool α) : Option (Pool α) :=
  if ¬ p.Has entityIdx then some p
  else
    let denseIdx := p.sparse.getD entityIdx 0
    if p.dense.length = 0 then none
    else
      let last := p.dense.length - 1
      if denseIdx ≥ p.dense.length then none
      else
        let step :=
          if denseIdx ≠ last then
            let lastEntityIdx := p.dense.getD last 0
            if lastEntityIdx < p.sparse.length ∧ last < p.data.length then
              match p.data.get? last with
              | some moved =>
                  some { sparse := p.sparse.set lastEntityIdx denseIdx
                       , dense := p.dense.set denseIdx lastEntityIdx
                       , data := p.data.set denseIdx moved }
              | none => none
            else none
          else some p
        match step with
        | none => none
        | some q =>
            some { sparse := q.sparse.set entityIdx EMPTY
                 , dense := q.dense.dropLast
                 , data := q.data.dropLast }

/-- The sparse-set representation invariant of `ComponentPool<T>`:
`m_dense` and `m_data` are parallel, the sparse array never outgrows
the `uint32` range minus the `EMPTY` sentinel, every dense entry points
back to its own position through `m_sparse`, and every non-`EMPTY`
sparse entry points to a dense entry holding its own index. -/
def WF {α : Type} (p : Pool α) : Prop :=
  p.dense.length = p.data.length ∧
  p.sparse.length ≤ EMPTY ∧
  (∀ i, i < p.dense.length →
    p.dense.getD i 0 < p.sparse.length ∧ p.sparse.getD (p.dense.getD i 0) 0 = i) ∧
  (∀ j, j < p.sparse.length → p.sparse.getD j 0 ≠ EMPTY →
    p.sparse.getD j 0 < p.dense.length ∧ p.dense.getD (p.sparse.getD j 0) 0 = j)

end Pool

/-! Part: Operation sequences on a single pool (for the density invariant) -/

/-- One client call on a `ComponentPool<T>`. -/
inductive POp (α : Type) where
  | emplace (idx : Nat) (v : α)
  | remove (idx : Nat)

/-- Run a sequence of `Emplace`/`Remove` calls from a given pool state;
`none` when any call fails its assertion or hits undefined behaviour. -/
def PoolExec {α : Type} : List (POp α) → Pool α → Option (Pool α)
  | [], p => some p
  | POp.emplace idx v :: ops, p =>
      match Pool.emplace idx v p with
      | none => none
      | some p1 => PoolExec ops p1
  | POp.remove idx :: ops, p =>
      match Pool.remove idx p with
      | none => none
      | some p1 => PoolExec ops p1

/-! Part: Registry.hpp — the central ECS world object

`m_pools` (an `unordered_map<type_index, unique_ptr<IPool>>`) becomes an
association list keyed by `Nat` (one key per component type); a freshly
created pool is appended at the end.  `m_freeList` (a `std::queue`) is a
list whose head is the queue front and whose tail end receives pushes. -/

structure Reg (α : Type) where
  alive : List Nat
  generations : List Nat
  freeList : List Nat
  pools : List (Nat × Pool α)
deriving DecidableEq

namespace Reg

def empty {α : Type} : Reg α := ⟨[], [], [], []⟩

/-- C++ `PoolPtr<T>` — `nullptr` becomes `none`. -/
def poolOf? {α : Type} (t : Nat) : List (Nat × Pool α) → Option (Pool α)
  | [] => none
  | (k, p) :: ps => if k = t then some p else poolOf? t ps

/-- Store an updated pool under key `t` (`Pool<T>` creates the pool on
first use; the update targets the existing entry otherwise). -/
def setPool {α : Type} (t : Nat) (q : Pool α) : List (Nat × Pool α) → List (Nat × Pool α)
  | [] => [(t, q)]
  | (k, p) :: ps => if k = t then (k, q) :: ps else (k, p) :: setPool t q ps

/-- C++ `IsAlive(id)`:
`EntityIndex(id) < m_generations.size() && EntityGeneration(id) == m_generations[idx]`.
Note that the stored generation counter is compared *unmasked*. -/
def isAlive {α : Type} (r : Reg α) (id : Nat) : Bool :=
  decide (EntityIndex id < r.generations.length) &&
    decide (EntityGeneration id = r.generations.getD (EntityIndex id) 0)

/-- C++ `CreateEntity()`: pop the free-list front if non-empty, else append
a fresh slot with generation `0`; the fresh index is
`static_cast<uint32_t>(m_generations.size())`, which silently wraps
modulo `2^32`. -/
def create {α : Type} (r : Reg α) : Nat × Reg α :=
  match r.freeList with
  | [] =>
      let idx := r.generations.length % U32
      let gens := r.generations ++ [0]
      let id := MakeEntity idx (gens.getD idx 0)
      (id, { r with generations := gens, alive := r.alive ++ [id] })
  | f :: fs =>
      let id := MakeEntity f (r.generations.getD f 0)
      (id, { r with freeList := fs, alive := r.alive ++ [id] })

/-- Strip `entityIdx` from every registered pool
(`for (auto& [ti, pool] : m_pools) pool->Remove(idx)`). -/
def poolsRemove {α : Type} (entityIdx : Nat) :
    List (Nat × Pool α) → Option (List (Nat × Pool α))
  | [] => some []
  | (k, p) :: ps =>
      match Pool.remove entityIdx p with
      | none => none
      | some q =>
          match poolsRemove entityIdx ps with
          | none => none
          | some qs => some ((k, q) :: qs)

/-- C++ `DestroyEntity(id)`: no-op when the handle is not alive; otherwise
strip every pool, bump the slot generation (`uint32` increment), push
the index on the free-list and erase the handle from `m_alive`
(`std::find` + `erase`: first occurrence). -/
def destroy {α : Type} (id : Nat) (r : Reg α) : Option (Reg α) :=
  if ¬ r.isAlive id then some r
  else
    match poolsRemove (EntityIndex id) r.pools with
    | none => none
    | some ps =>
        some { alive := r.alive.erase id
             , generations :=
                 r.generations.set (EntityIndex id)
                   ((r.generations.getD (EntityIndex id) 0 + 1) % U32)
             , freeList := r.freeList ++ [EntityIndex id]
             , pools := ps }

/-- C++ `AddComponent<T>(id, v)`:
`assert(IsAlive(id))` then `Pool<T>().Emplace(EntityIndex(id), v)`. -/
def addComponent {α : Type} (t id : Nat) (v : α) (r : Reg α) : Option (Reg α) :=
  if ¬ r.isAlive id then none
  else
    match Pool.emplace (EntityIndex id) v ((poolOf? t r.pools).getD Pool.empty) with
    | none => none
    | some q => some { r with pools := setPool t q r.pools }

/-- C++ `RemoveComponent<T>(id)`: no-op when the pool does not exist. -/
def removeComponent {α : Type} (t id : Nat) (r : Reg α) : Option (Reg α) :=
  match poolOf? t r.pools with
  | none => some r
  | some p =>
      match Pool.remove (EntityIndex id) p with
      | none => none
      | some q => some { r with pools := setPool t q r.pools }

/-- C++ `HasComponent<T>(id)`: `p && p->Has(EntityIndex(id))` — no
aliveness check. -/
def hasComponent {α : Type} (t id : Nat) (r : Reg α) : Bool :=
  match poolOf? t r.pools with
  | none => false
  | some p => p.Has (EntityIndex id)

end Reg

/-! Part: Entity lifecycle sequences (Create / Destroy) -/

/-- One entity-lifecycle call on the Registry. -/
inductive LOp where
  | lcreate
  | ldestroy (id : Nat)

/-- Run a sequence of `CreateEntity`/`DestroyEntity` calls. -/
def execL {α : Type} : List LOp → Reg α → Option (Reg α)
  | [], r => some r
  | LOp.lcreate :: ops, r => execL ops (Reg.create r).2
  | LOp.ldestroy id :: ops, r =>
      match Reg.destroy id r with
      | none => none
      | some r1 => execL ops r1

/-! Part: The 4096-recycle scenario (drives C2 and C5)

`recycleOnce` destroys the current occupant of slot 0 (the handle
`MakeEntity(0, generations[0])`, as `CreateEntity` returned it) and
immediately creates a new entity, which pops slot 0 from the free
list. -/

def recycleOnce (r : Reg Nat) : Option (Reg Nat) :=
  match Reg.destroy (MakeEntity 0 (r.generations.getD 0 0)) r with
  | none => none
  | some r1 => some (Reg.create r1).2

/-- C++ `recycleOnce` applied `n` times. -/
def recycleN : Nat → Reg Nat → Option (Reg Nat)
  | 0, r => some r
  | n+1, r =>
      match recycleN n r with
      | none => none
      | some r1 => recycleOnce r1

/-! Part: C9 — index width exhaustion -/

/-- C++ `CreateEntity` applied `n` times. -/
def createN {α : Type} : Nat → Reg α → Reg α
  | 0, r => r
  | n+1, r => (Reg.create (createN n r)).2

/-! Part: Registry queries — View (Registry.hpp View / FindSmallestPool) -/

/-- C++ `HasAt<T>(idx)`: `p && p->Has(idx)`. -/
def hasAt {α : Type} (t idx : Nat) (r : Reg α) : Bool :=
  match Reg.poolOf? t r.pools with
  | none => false
  | some p => p.Has idx

/-- C++ `HasAllAt<Ts...>(idx)`: fold of `HasAt` over the type list. -/
def hasAllAt {α : Type} (ts : List Nat) (idx : Nat) (r : Reg α) : Bool :=
  ts.all (fun t => hasAt t idx r)

/-- C++ `~size_t(0)`, the initial `minSize` of `FindSmallestPool`. -/
def SIZE_MAX : Nat := 18446744073709551615

/-- The accumulator loop of `FindSmallestPool`: a missing pool aborts
with `nullptr`; otherwise the first strictly-smallest pool wins. -/
def fspLoop {α : Type} : List (Option (Pool α)) → Option (Pool α) → Nat → Option (Pool α)
  | [], res, _ => res
  | none :: _, _, _ => none
  | some p :: rest, res, m =>
      if p.dense.length < m then fspLoop rest (some p) p.dense.length
      else fspLoop rest res m

/-- C++ `FindSmallestPool<Ts...>()`. -/
def findSmallestPool {α : Type} (ts : List Nat) (r : Reg α) : Option (Pool α) :=
  fspLoop (ts.map (fun t => Reg.poolOf? t r.pools)) none SIZE_MAX

/-- C++ `View<Ts...>(fn)` with a visitor that performs no mutation,
modelled as the list of `EntityId`s passed to `fn`, in visit order.
The component references passed alongside
(`Pool<Ts>().Get(idx)...`) satisfy `Get`'s precondition because
`HasAllAt` was just checked. -/
def viewVisits {α : Type} (ts : List Nat) (r : Reg α) : List Nat :=
  match findSmallestPool ts r with
  | none => []
  | some smallest =>
      if smallest.dense.length = 0 then []
      else
        smallest.dense.filterMap (fun idx =>
          if ¬ hasAllAt ts idx r then none
          else if r.generations.length ≤ idx then none
          else some (MakeEntity idx (r.generations.getD idx 0)))

/-- Well-formedness of a reachable registry: every pool satisfies the
sparse-set invariant and stores only entity indices that fit the
20-bit index field and the generation table (both automatic for pools
populated through `AddComponent`, which masks via `EntityIndex` and
asserts `IsAlive`). -/
def RegWF {α : Type} (r : Reg α) : Prop :=
  (∀ tp ∈ r.pools, Pool.WF tp.2) ∧
  (∀ tp ∈ r.pools, ∀ i ∈ tp.2.dense, i < 1048576 ∧ i < r.generations.length)

instance poolWFDecidable {α : Type} (p : Pool α) : Decidable (Pool.WF p) := by
  unfold Pool.WF
  infer_instance

instance regWFDecidable {α : Type} (r : Reg α) : Decidable (RegWF r) := by
  unfold RegWF
  infer_instance

/-! Part: Each with a mutating callback (Registry.hpp Each)

The callback body is modelled syntactically: at each visit it runs a
list of registry calls.  `ccreate comps` is
`CreateEntity` followed by `AddComponent<T>` for each `(type, value)`
pair; `cdestroy`/`cremove` are `DestroyEntity`/`RemoveComponent`. -/

inductive Cmd (α : Type) where
  | ccreate (comps : List (Nat × α))
  | cdestroy (id : Nat)
  | cremove (t : Nat) (id : Nat)

def attachAll {α : Type} : List (Nat × α) → Nat → Reg α → Option (Reg α)
  | [], _, r => some r
  | (t, v) :: rest, id, r =>
      match Reg.addComponent t id v r with
      | none => none
      | some r1 => attachAll rest id r1

/-- Run one callback command; returns the new state and the list of
`(handle, attached component types)` for entities it created. -/
def runCmd {α : Type} : Cmd α → Reg α → Option (Reg α × List (Nat × List Nat))
  | Cmd.ccreate comps, r =>
      match attachAll comps (Reg.create r).1 (Reg.create r).2 with
      | none => none
      | some r1 => some (r1, [((Reg.create r).1, comps.map Prod.fst)])
  | Cmd.cdestroy id, r =>
      match Reg.destroy id r with
      | none => none
      | some r1 => some (r1, [])
  | Cmd.cremove t id, r =>
      match Reg.removeComponent t id r with
      | none => none
      | some r1 => some (r1, [])

def runCmds {α : Type} : List (Cmd α) → Reg α → Option (Reg α × List (Nat × List Nat))
  | [], r => some (r, [])
  | c :: cs, r =>
      match runCmd c r with
      | none => none
      | some (r1, n1) =>
          match runCmds cs r1 with
          | none => none
          | some (r2, n2) => some (r2, n1 ++ n2)

/-- The loop of `Each<T>(fn)` over the snapshot `idxList`, threading
the registry state through the callback.  Per index the *only* guard is
`idx >= m_generations.size()`; then the handle is rebuilt from the
*current* generation table and `p->Get(idx)` is evaluated — its
`assert(Has(idx))` fails (`none`) if the component is gone. -/
def eachGo {α : Type} (t : Nat) (cb : Nat → List (Cmd α)) :
    List Nat → Reg α → List Nat → List (Nat × List Nat) →
      Option (Reg α × List Nat × List (Nat × List Nat))
  | [], r, vis, created => some (r, vis, created)
  | idx :: rest, r, vis, created =>
      if r.generations.length ≤ idx then eachGo t cb rest r vis created
      else
        match Reg.poolOf? t r.pools with
        | none => none
        | some p =>
            if ¬ p.Has idx then none
            else
              match runCmds (cb (MakeEntity idx (r.generations.getD idx 0))) r with
              | none => none
              | some (r1, newc) =>
                  eachGo t cb rest r1
                    (vis ++ [MakeEntity idx (r.generations.getD idx 0)])
                    (created ++ newc)

/-- C++ `Each<T>(fn)`: early return on a missing or empty pool, else
snapshot the dense index list (`const auto idxList = p->EntityIndices()`
copies the vector) and loop.  Returns the final state, the visited
handles and the created entities. -/
def each {α : Type} (t : Nat) (cb : Nat → List (Cmd α)) (r : Reg α) :
    Option (Reg α × List Nat × List (Nat × List Nat)) :=
  match Reg.poolOf? t r.pools with
  | none => some (r, [], [])
  | some p =>
      if p.dense.length = 0 then some (r, [], [])
      else eachGo t cb p.dense r [] []

/-- The snapshot `Each<T>` iterates: the pool's dense index list at
call time (empty when the pool does not exist). -/
def eachSnapshot {α : Type} (t : Nat) (r : Reg α) : List Nat :=
  match Reg.poolOf? t r.pools with
  | none => []
  | some p => p.dense

/-! Part: theorems -/

/-! Part: Small list-access helper lemmas -/

theorem getD_set_eq {α : Type} (l : List α) (i : Nat) (v d : α)
    (h : i < l.length) : (l.set i v).getD i d = v := by
  induction l generalizing i with
  | nil => simp at h
  | cons a t ih =>
    cases i with
    | zero => simp [List.getD]
    | succ n =>
      simp only [List.set]
      simpa [List.getD] using ih n (by simpa using h)

theorem getD_set_ne {α : Type} (l : List α) (i j : Nat) (v d : α)
    (h : i ≠ j) : (l.set i v).getD j d = l.getD j d := by
  induction l generalizing i j with
  | nil => simp
  | cons a t ih =>
    cases i with
    | zero =>
      cases j with
      | zero => exact absurd rfl h
      | succ m => simp [List.getD]
    | succ n =>
      cases j with
      | zero => simp [List.getD]
      | succ m =>
        simp only [List.set]
        simpa [List.getD] using ih n m (fun hh => h (by simp [hh]))

theorem getD_append_lt {α : Type} (l l' : List α) (i : Nat) (d : α)
    (h : i < l.length) : (l ++ l').getD i d = l.getD i d := by
  induction l generalizing i with
  | nil => simp at h
  | cons a t ih =>
    cases i with
    | zero => simp [List.getD]
    | succ n =>
      simp only [List.cons_append]
      simpa [List.getD] using ih n (by simpa using h)

theorem getD_append_ge {α : Type} (l l' : List α) (i : Nat) (d : α)
    (h : l.length ≤ i) : (l ++ l').getD i d = l'.getD (i - l.length) d := by
  induction l generalizing i with
  | nil => simp
  | cons a t ih =>
    cases i with
    | zero => simp at h
    | succ n =>
      simp only [List.cons_append]
      simpa [List.getD] using ih n (by simpa using h)

theorem getD_replicate {α : Type} (n i : Nat) (x d : α)
    (h : i < n) : (List.replicate n x).getD i d = x := by
  induction n generalizing i with
  | zero => simp at h
  | succ m ih =>
    cases i with
    | zero => simp [List.replicate, List.getD]
    | succ k =>
      simp only [List.replicate]
      simpa [List.getD] using ih k (by omega)

theorem getD_eq_default {α : Type} (l : List α) (i : Nat) (d : α)
    (h : l.length ≤ i) : l.getD i d = d := by
  induction l generalizing i with
  | nil => simp
  | cons a t ih =>
    cases i with
    | zero => simp at h
    | succ n => simpa [List.getD] using ih n (by simpa using h)

theorem getD_eq_getElem {α : Type} (l : List α) (i : Nat) (d : α)
    (h : i < l.length) : l.getD i d = l[i] := by
  simp [List.getD_eq_getElem?_getD, List.getElem?_eq_getElem h]

theorem getD_dropLast {α : Type} :
    ∀ (l : List α) (i : Nat) (d : α), i < l.length - 1 →
      l.dropLast.getD i d = l.getD i d
  | [], _, _, h => by simp at h
  | [_], _, _, h => by simp at h
  | a :: b :: t, 0, d, _ => by simp [List.dropLast, List.getD]
  | a :: b :: t, (i+1), d, h => by
      have ih := getD_dropLast (b :: t) i d (by simp at h ⊢; omega)
      simpa [List.dropLast, List.getD] using ih

theorem EntityIndex_MakeEntity (idx gen : Nat) :
    EntityIndex (MakeEntity idx gen) = idx % 1048576 := by
  unfold EntityIndex MakeEntity
  omega

theorem EntityGeneration_MakeEntity (idx gen : Nat) :
    EntityGeneration (MakeEntity idx gen) = gen % 4096 := by
  unfold EntityGeneration MakeEntity
  omega

theorem MakeEntity_inj {i1 g1 i2 g2 : Nat} (h : MakeEntity i1 g1 = MakeEntity i2 g2) :
    i1 % 1048576 = i2 % 1048576 ∧ g1 % 4096 = g2 % 4096 := by
  have hi := congrArg EntityIndex h
  have hg := congrArg EntityGeneration h
  rw [EntityIndex_MakeEntity, EntityIndex_MakeEntity] at hi
  rw [EntityGeneration_MakeEntity, EntityGeneration_MakeEntity] at hg
  exact ⟨hi, hg⟩

theorem EntityGeneration_lt (id : Nat) : EntityGeneration id < 4096 :=
  Nat.mod_lt _ (by norm_num)

theorem EntityIndex_lt (id : Nat) : EntityIndex id < 1048576 :=
  Nat.mod_lt _ (by norm_num)

namespace Pool

theorem WF.empty {α : Type} : WF (Pool.empty (α := α)) := by
  refine ⟨rfl, by simp [Pool.empty, EMPTY], ?_, ?_⟩ <;> intro i hi <;> simp [Pool.empty] at hi

theorem WF.dense_nodup {α : Type} {p : Pool α} (h : WF p) : p.dense.Nodup := by
  rcases h with ⟨-, -, h3, -⟩
  rw [List.nodup_iff_injective_get]
  intro a b hab
  have ha := (h3 a.1 a.2).2
  have hb := (h3 b.1 b.2).2
  have hga : p.dense.getD a.1 0 = p.dense.get a := by
    rw [getD_eq_getElem _ _ _ a.2, List.get_eq_getElem]
  have hgb : p.dense.getD b.1 0 = p.dense.get b := by
    rw [getD_eq_getElem _ _ _ b.2, List.get_eq_getElem]
  apply Fin.ext
  rw [← ha, ← hb, hga, hgb, hab]

theorem WF.dense_length_le {α : Type} {p : Pool α} (h : WF p) :
    p.dense.length ≤ p.sparse.length := by
  have hnd := h.dense_nodup
  have h3 := h.2.2.1
  have hsub : p.dense.toFinset ⊆ Finset.range p.sparse.length := by
    intro x hx
    rw [List.mem_toFinset] at hx
    rcases List.mem_iff_getElem.1 hx with ⟨i, hi, hEq⟩
    have hg : p.dense.getD i 0 = p.dense[i] := getD_eq_getElem _ _ _ hi
    rw [Finset.mem_range, ← hEq, ← hg]
    exact (h3 i hi).1
  have hc := Finset.card_le_card hsub
  rwa [List.toFinset_card_of_nodup hnd, Finset.card_range] at hc

theorem WF.mem_dense_iff {α : Type} {p : Pool α} (h : WF p) (j : Nat) :
    j ∈ p.dense ↔ p.Has j = true := by
  have hdl := h.dense_length_le
  have h2 := h.2.1
  have h3 := h.2.2.1
  have h4 := h.2.2.2
  constructor
  · intro hj
    rcases List.mem_iff_getElem.1 hj with ⟨i, hi, hEq⟩
    have hg : p.dense.getD i 0 = p.dense[i] := getD_eq_getElem _ _ _ hi
    rw [← hEq, ← hg]
    have h31 := (h3 i hi).1
    have h32 := (h3 i hi).2
    simp only [Pool.Has, Bool.and_eq_true, decide_eq_true_eq]
    refine ⟨h31, ?_⟩
    rw [h32]
    omega
  · intro hj
    simp only [Pool.Has, Bool.and_eq_true, decide_eq_true_eq] at hj
    rcases hj with ⟨hj1, hj2⟩
    have h41 := (h4 j hj1 hj2).1
    have h42 := (h4 j hj1 hj2).2
    rw [← h42, getD_eq_getElem _ _ _ h41]
    exact List.getElem_mem h41

/-- C++ `Emplace` succeeds only on an index the pool does not hold, appends
that index to the dense array, appends the value, and preserves the
sparse-set invariant. -/
theorem WF.emplace {α : Type} {p p' : Pool α} {idx : Nat} {v : α}
    (h : WF p) (he : Pool.emplace idx v p = some p') :
    WF p' ∧ p'.dense = p.dense ++ [idx] ∧ p'.data = p.data ++ [v] ∧ idx ∉ p.dense := by
  unfold Pool.emplace at he
  by_cases hrep : idx + 1 ≥ U32
  · rw [if_pos hrep] at he
    exact Option.noConfusion he
  rw [if_neg hrep] at he
  set sparse1 :=
    if p.sparse.length ≤ idx then
      p.sparse ++ List.replicate (idx + 1 - p.sparse.length) EMPTY
    else p.sparse with hs1
  by_cases hhas : idx < sparse1.length ∧ sparse1.getD idx 0 ≠ EMPTY
  · rw [if_pos hhas] at he
    exact Option.noConfusion he
  rw [if_neg hhas] at he
  have he := Option.some.inj he
  -- facts about the resized sparse array
  have hsl : sparse1.length = max p.sparse.length (idx + 1) := by
    rw [hs1]
    by_cases hle : p.sparse.length ≤ idx
    · simp only [hle, if_true, List.length_append, List.length_replicate]
      omega
    · simp only [hle, if_false]
      omega
  have hslen_le : sparse1.length ≤ EMPTY := by
    rcases h with ⟨-, h2, -, -⟩
    unfold EMPTY at h2 ⊢
    unfold U32 at hrep
    omega
  have hidx_lt : idx < sparse1.length := by omega
  have hs1_old : ∀ j, j < p.sparse.length → sparse1.getD j 0 = p.sparse.getD j 0 := by
    intro j hj
    rw [hs1]
    by_cases hle : p.sparse.length ≤ idx
    · simp only [hle, if_true]
      exact getD_append_lt _ _ _ _ hj
    · simp [hle]
  have hs1_new : ∀ j, p.sparse.length ≤ j → j < sparse1.length → sparse1.getD j 0 = EMPTY := by
    intro j hj1 hj2
    rw [hs1]
    by_cases hle : p.sparse.length ≤ idx
    · simp only [hle, if_true]
      rw [getD_append_ge _ _ _ _ hj1]
      apply getD_replicate
      omega
    · omega
  -- idx is not held
  have hnotHeld : idx ∉ p.dense := by
    intro hmem
    rcases List.mem_iff_getElem.1 hmem with ⟨i, hi, hEq⟩
    have hg : p.dense.getD i 0 = p.dense[i] := getD_eq_getElem _ _ _ hi
    have h31 := (h.2.2.1 i hi).1
    have h32 := (h.2.2.1 i hi).2
    rw [hg, hEq] at h31 h32
    apply hhas
    refine ⟨hidx_lt, ?_⟩
    rw [hs1_old idx h31, h32]
    have hdl := h.dense_length_le
    have h2 := h.2.1
    omega
  -- pigeonhole: dense entries are distinct, all < sparse1.length, and idx is fresh
  have hdlt : p.dense.length < sparse1.length := by
    have hnd : (idx :: p.dense).Nodup := List.nodup_cons.2 ⟨hnotHeld, h.dense_nodup⟩
    have hsub : (idx :: p.dense).toFinset ⊆ Finset.range sparse1.length := by
      intro x hx
      rw [List.mem_toFinset, List.mem_cons] at hx
      rcases hx with hx | hx
      · rw [Finset.mem_range]
        omega
      · rcases List.mem_iff_getElem.1 hx with ⟨i, hi, hEq⟩
        have hg : p.dense.getD i 0 = p.dense[i] := getD_eq_getElem _ _ _ hi
        have h31 := (h.2.2.1 i hi).1
        rw [Finset.mem_range, ← hEq, ← hg]
        omega
    have hcard := Finset.card_le_card hsub
    rw [List.toFinset_card_of_nodup hnd, Finset.card_range] at hcard
    simpa using hcard
  have hnowrap : p.dense.length % U32 = p.dense.length := by
    apply Nat.mod_eq_of_lt
    unfold U32
    unfold EMPTY at hslen_le
    omega
  have hnd_ne_empty : p.dense.length ≠ EMPTY := by
    omega
  subst he
  refine ⟨⟨?_, ?_, ?_, ?_⟩, rfl, rfl, hnotHeld⟩
  · simp [h.1]
  · simpa [List.length_set] using hslen_le
  · intro i hi
    simp only [List.length_append, List.length_cons, List.length_nil] at hi
    by_cases hlt : i < p.dense.length
    · have hdi : (p.dense ++ [idx]).getD i 0 = p.dense.getD i 0 := getD_append_lt _ _ _ _ hlt
      have h31 := (h.2.2.1 i hlt).1
      have h32 := (h.2.2.1 i hlt).2
      have hne : idx ≠ p.dense.getD i 0 := by
        intro hEq
        apply hnotHeld
        rw [hEq, getD_eq_getElem _ _ _ hlt]
        exact List.getElem_mem hlt
      simp only [hdi]
      constructor
      · rw [List.length_set]
        omega
      · rw [getD_set_ne _ _ _ _ _ hne, hs1_old _ h31]
        exact h32
    · have hieq : i = p.dense.length := by omega
      subst hieq
      have hdi : (p.dense ++ [idx]).getD p.dense.length 0 = idx := by
        rw [getD_append_ge _ _ _ _ (le_refl _)]
        simp [List.getD]
      simp only [hdi]
      constructor
      · rw [List.length_set]
        exact hidx_lt
      · rw [getD_set_eq _ _ _ _ hidx_lt, hnowrap]
  · intro j hj hne
    simp only [List.length_set] at hj
    by_cases hji : j = idx
    · subst hji
      rw [getD_set_eq _ _ _ _ hidx_lt, hnowrap] at hne ⊢
      constructor
      · simp
      · rw [getD_append_ge _ _ _ _ (le_refl _)]
        simp [List.getD]
    · rw [getD_set_ne _ _ _ _ _ (fun hEq => hji hEq.symm)] at hne ⊢
      by_cases hjold : j < p.sparse.length
      · rw [hs1_old _ hjold] at hne ⊢
        have h41 := (h.2.2.2 j hjold hne).1
        have h42 := (h.2.2.2 j hjold hne).2
        constructor
        · simp only [List.length_append, List.length_cons, List.length_nil]
          omega
        · rw [getD_append_lt _ _ _ _ h41]
          exact h42
      · exfalso
        exact hne (hs1_new j (by omega) hj)

/-- C++ `Remove` on a well-formed pool preserves the sparse-set
invariant (both the swap-with-last path and the remove-last path). -/
theorem WF.remove {α : Type} {p p' : Pool α} {idx : Nat}
    (h : WF p) (hr : Pool.remove idx p = some p') : WF p' := by
  by_cases hH : p.Has idx = true
  swap
  · unfold Pool.remove at hr
    rw [if_pos (by simpa using hH)] at hr
    rw [← Option.some.inj hr]
    exact h
  -- facts from Has and the invariant
  have hHasProp : idx < p.sparse.length ∧ p.sparse.getD idx 0 ≠ EMPTY := by
    simpa [Pool.Has] using hH
  have hIdx : idx < p.sparse.length := hHasProp.1
  have hDIlt : p.sparse.getD idx 0 < p.dense.length :=
    (h.2.2.2 idx hIdx hHasProp.2).1
  have hdd : p.dense.getD (p.sparse.getD idx 0) 0 = idx :=
    (h.2.2.2 idx hIdx hHasProp.2).2
  have hL0 : ¬ (p.dense.length = 0) := by omega
  have hDIge : ¬ (p.sparse.getD idx 0 ≥ p.dense.length) := by omega
  unfold Pool.remove at hr
  rw [if_neg (by simpa using hH), if_neg hL0, if_neg hDIge] at hr
  have hlen := h.1
  have hsEMPTY := h.2.1
  by_cases hswap : p.sparse.getD idx 0 ≠ p.dense.length - 1
  · -- swap-with-last path
    have hlast : p.dense.length - 1 < p.dense.length := by omega
    have hlastE_lt : p.dense.getD (p.dense.length - 1) 0 < p.sparse.length :=
      (h.2.2.1 _ hlast).1
    have hlastE_pt : p.sparse.getD (p.dense.getD (p.dense.length - 1) 0) 0 =
        p.dense.length - 1 := (h.2.2.1 _ hlast).2
    have hguard : p.dense.getD (p.dense.length - 1) 0 < p.sparse.length ∧
        p.dense.length - 1 < p.data.length := ⟨hlastE_lt, by omega⟩
    have hget : p.data.get? (p.dense.length - 1) =
        some (p.data.get ⟨p.dense.length - 1, by omega⟩) :=
      List.get?_eq_get _
    rw [if_pos hswap, if_pos hguard, hget] at hr
    have hr' := Option.some.inj hr
    have hsp : p'.sparse =
        (p.sparse.set (p.dense.getD (p.dense.length - 1) 0) (p.sparse.getD idx 0)).set
          idx EMPTY := by
      rw [← hr']
    have hde : p'.dense =
        (p.dense.set (p.sparse.getD idx 0) (p.dense.getD (p.dense.length - 1) 0)).dropLast := by
      rw [← hr']
    have hda : p'.data =
        (p.data.set (p.sparse.getD idx 0) (p.data.get ⟨p.dense.length - 1, by omega⟩)).dropLast := by
      rw [← hr']
    have hlastE_ne_idx : p.dense.getD (p.dense.length - 1) 0 ≠ idx := by
      intro hEq
      rw [hEq] at hlastE_pt
      omega
    refine ⟨?_, ?_, ?_, ?_⟩
    · rw [hde, hda]
      simp only [List.length_dropLast, List.length_set]
      omega
    · rw [hsp, List.length_set, List.length_set]
      exact hsEMPTY
    · intro i hi
      rw [hde] at hi
      simp only [List.length_dropLast, List.length_set] at hi
      rw [hde, hsp, getD_dropLast _ _ _ (by rw [List.length_set]; omega)]
      by_cases hid : i = p.sparse.getD idx 0
      · subst hid
        rw [getD_set_eq _ _ _ _ hDIlt]
        constructor
        · rw [List.length_set, List.length_set]
          exact hlastE_lt
        · rw [getD_set_ne _ _ _ _ _ (fun hEq => hlastE_ne_idx hEq.symm),
              getD_set_eq _ _ _ _ hlastE_lt]
      · rw [getD_set_ne _ _ _ _ _ (fun hEq => hid hEq.symm)]
        have h31 := (h.2.2.1 i (by omega)).1
        have h32 := (h.2.2.1 i (by omega)).2
        have hw_ne_idx : p.dense.getD i 0 ≠ idx := by
          intro hEq
          rw [hEq] at h32
          omega
        have hw_ne_lastE : p.dense.getD i 0 ≠ p.dense.getD (p.dense.length - 1) 0 := by
          intro hEq
          rw [hEq, hlastE_pt] at h32
          omega
        constructor
        · rw [List.length_set, List.length_set]
          exact h31
        · rw [getD_set_ne _ _ _ _ _ (fun hEq => hw_ne_idx hEq.symm),
              getD_set_ne _ _ _ _ _ (fun hEq => hw_ne_lastE hEq.symm)]
          exact h32
    · intro j hj hne
      rw [hsp] at hj hne
      rw [hsp, hde]
      simp only [List.length_set] at hj
      by_cases hji : j = idx
      · subst hji
        rw [getD_set_eq _ _ _ _ (by rw [List.length_set]; exact hIdx)] at hne
        exact absurd rfl hne
      · rw [getD_set_ne _ _ _ _ _ (fun hEq => hji hEq.symm)] at hne ⊢
        by_cases hjl : j = p.dense.getD (p.dense.length - 1) 0
        · subst hjl
          rw [getD_set_eq _ _ _ _ hlastE_lt] at hne ⊢
          constructor
          · simp only [List.length_dropLast, List.length_set]
            omega
          · rw [getD_dropLast _ _ _ (by rw [List.length_set]; omega),
                getD_set_eq _ _ _ _ hDIlt]
        · rw [getD_set_ne _ _ _ _ _ (fun hEq => hjl hEq.symm)] at hne ⊢
          have h41 := (h.2.2.2 j hj hne).1
          have h42 := (h.2.2.2 j hj hne).2
          have hk_ne_last : p.sparse.getD j 0 ≠ p.dense.length - 1 := by
            intro hEq
            rw [hEq] at h42
            exact hjl h42.symm
          have hk_ne_dIdx : p.sparse.getD j 0 ≠ p.sparse.getD idx 0 := by
            intro hEq
            rw [hEq, hdd] at h42
            exact hji h42.symm
          constructor
          · simp only [List.length_dropLast, List.length_set]
            omega
          · rw [getD_dropLast _ _ _ (by rw [List.length_set]; omega),
                getD_set_ne _ _ _ _ _ (fun hEq => hk_ne_dIdx hEq.symm)]
            exact h42
  · -- the removed element already sits in the last dense slot
    rw [if_neg hswap] at hr
    have hr' := Option.some.inj hr
    have hsp : p'.sparse = p.sparse.set idx EMPTY := by
      rw [← hr']
    have hde : p'.dense = p.dense.dropLast := by
      rw [← hr']
    have hda : p'.data = p.data.dropLast := by
      rw [← hr']
    push_neg at hswap
    have hdlast : p.dense.getD (p.dense.length - 1) 0 = idx := by
      rw [← hswap]
      exact hdd
    refine ⟨?_, ?_, ?_, ?_⟩
    · rw [hde, hda]
      simp only [List.length_dropLast]
      omega
    · rw [hsp, List.length_set]
      exact hsEMPTY
    · intro i hi
      rw [hde] at hi
      simp only [List.length_dropLast] at hi
      rw [hde, hsp, getD_dropLast _ _ _ hi]
      have h31 := (h.2.2.1 i (by omega)).1
      have h32 := (h.2.2.1 i (by omega)).2
      have hw_ne_idx : p.dense.getD i 0 ≠ idx := by
        intro hEq
        rw [hEq] at h32
        omega
      constructor
      · rw [List.length_set]
        exact h31
      · rw [getD_set_ne _ _ _ _ _ (fun hEq => hw_ne_idx hEq.symm)]
        exact h32
    · intro j hj hne
      rw [hsp] at hj hne
      rw [hsp, hde]
      simp only [List.length_set] at hj
      by_cases hji : j = idx
      · subst hji
        rw [getD_set_eq _ _ _ _ hIdx] at hne
        exact absurd rfl hne
      · rw [getD_set_ne _ _ _ _ _ (fun hEq => hji hEq.symm)] at hne ⊢
        have h41 := (h.2.2.2 j hj hne).1
        have h42 := (h.2.2.2 j hj hne).2
        have hk_ne_last : p.sparse.getD j 0 ≠ p.dense.length - 1 := by
          intro hEq
          rw [hEq, hdlast] at h42
          exact hji h42.symm
        constructor
        · simp only [List.length_dropLast]
          omega
        · rw [getD_dropLast _ _ _ (by omega)]
          exact h42

end Pool

theorem PoolExec_WF {α : Type} :
    ∀ (ops : List (POp α)) (p p' : Pool α), Pool.WF p →
      PoolExec ops p = some p' → Pool.WF p' := by
  intro ops
  induction ops with
  | nil =>
    intro p p' hw he
    rw [← Option.some.inj he]
    exact hw
  | cons op rest ih =>
    intro p p' hw he
    cases op with
    | emplace idx v =>
      unfold PoolExec at he
      cases hcall : Pool.emplace idx v p with
      | none => rw [hcall] at he; exact Option.noConfusion he
      | some p1 =>
        rw [hcall] at he
        exact ih p1 p' (hw.emplace hcall).1 he
    | remove idx =>
      unfold PoolExec at he
      cases hcall : Pool.remove idx p with
      | none => rw [hcall] at he; exact Option.noConfusion he
      | some p1 =>
        rw [hcall] at he
        exact ih p1 p' (hw.remove hcall) he

/-- C1: (*Pool density invariant*).  For every sequence of `Emplace`
and `Remove` calls on a `ComponentPool<T>` starting from the empty pool
(each `Emplace` on an index the pool does not yet hold — the
`assert(!Has)` in `Emplace`, modelled as the success of `PoolExec`),
the resulting pool satisfies: `m_dense` and `m_data` have equal length
equal to `Size()`, and for every `i < Size()`,
`m_sparse[m_dense[i]] == i`. -/
theorem pool_density_invariant {α : Type} (ops : List (POp α)) (p : Pool α)
    (h : PoolExec ops Pool.empty = some p) :
    p.dense.length = p.size ∧ p.data.length = p.size ∧
      ∀ i, i < p.size → p.sparse.getD (p.dense.getD i 0) 0 = i := by
  have hwf : Pool.WF p := PoolExec_WF ops Pool.empty p Pool.WF.empty h
  exact ⟨rfl, by rw [Pool.size, hwf.1], fun i hi => (hwf.2.2.1 i hi).2⟩

/-- Witness for C1: a concrete emplace/emplace/remove/emplace sequence
(the first remove exercises the swap-with-last path). -/
theorem pool_density_invariant_witness :
    PoolExec [POp.emplace 0 10, POp.emplace 3 11, POp.remove 0,
              POp.emplace 7 12] (Pool.empty (α := Nat)) =
        some ⟨[EMPTY, EMPTY, EMPTY, 0, EMPTY, EMPTY, EMPTY, 1], [3, 7], [11, 12]⟩ ∧
      ([3, 7] : List Nat).length = 2 ∧ ([11, 12] : List Nat).length = 2 ∧
      ∀ i, i < 2 → ([EMPTY, EMPTY, EMPTY, 0, EMPTY, EMPTY, EMPTY, 1] : List Nat).getD
        (([3, 7] : List Nat).getD i 0) 0 = i := by
  have h := pool_density_invariant (α := Nat)
    [POp.emplace 0 10, POp.emplace 3 11, POp.remove 0, POp.emplace 7 12]
    ⟨[EMPTY, EMPTY, EMPTY, 0, EMPTY, EMPTY, EMPTY, 1], [3, 7], [11, 12]⟩ (by decide)
  exact ⟨by decide, h.1, h.2.1, h.2.2⟩

/-! Part: C7 — idempotent destroy -/

/-- C7: (*Idempotent destroy*).  If `DestroyEntity(id)` turns `r`
into `r'`, running `DestroyEntity(id)` again on `r'` is a no-op: the
second call returns `r'` unchanged (same generation table, free-list,
live-entity list, and every pool). -/
theorem destroy_idempotent {α : Type} (r r' : Reg α) (id : Nat)
    (h : Reg.destroy id r = some r') : Reg.destroy id r' = some r' := by
  by_cases ha : r.isAlive id = true
  swap
  · unfold Reg.destroy at h
    rw [if_pos (by simpa using ha)] at h
    rw [← Option.some.inj h]
    unfold Reg.destroy
    rw [if_pos (by simpa using ha)]
  · unfold Reg.destroy at h
    rw [if_neg (not_not_intro ha)] at h
    cases hps : Reg.poolsRemove (EntityIndex id) r.pools with
    | none =>
      rw [hps] at h
      exact Option.noConfusion h
    | some ps =>
      rw [hps] at h
      have hr' := Option.some.inj h
      have hgen : r'.generations =
          r.generations.set (EntityIndex id)
            ((r.generations.getD (EntityIndex id) 0 + 1) % U32) := by
        rw [← hr']
      simp only [Reg.isAlive, Bool.and_eq_true, decide_eq_true_eq] at ha
      have hidx : EntityIndex id < r.generations.length := ha.1
      have hgeq : EntityGeneration id = r.generations.getD (EntityIndex id) 0 := ha.2
      have hglt : EntityGeneration id < 4096 := EntityGeneration_lt id
      have hnostep : (r.generations.getD (EntityIndex id) 0 + 1) % U32 =
          r.generations.getD (EntityIndex id) 0 + 1 := by
        apply Nat.mod_eq_of_lt
        unfold U32
        omega
      have hdead : ¬ (r'.isAlive id = true) := by
        simp only [Reg.isAlive, Bool.and_eq_true, decide_eq_true_eq]
        intro hcon
        have h2 := hcon.2
        rw [hgen, getD_set_eq _ _ _ _ hidx, hnostep] at h2
        omega
      unfold Reg.destroy
      rw [if_pos hdead]

/-- Witness for C7 at a concrete registry: one live entity owning one
component, destroyed once and then destroyed again. -/
theorem destroy_idempotent_witness :
    Reg.destroy 0 (⟨[0], [0], [], [(5, ⟨[0], [0], [77]⟩)]⟩ : Reg Nat) =
        some ⟨[], [1], [0], [(5, ⟨[EMPTY], [], []⟩)]⟩ ∧
      Reg.destroy 0 (⟨[], [1], [0], [(5, ⟨[EMPTY], [], []⟩)]⟩ : Reg Nat) =
        some ⟨[], [1], [0], [(5, ⟨[EMPTY], [], []⟩)]⟩ := by
  refine ⟨by decide, ?_⟩
  exact destroy_idempotent
    (⟨[0], [0], [], [(5, ⟨[0], [0], [77]⟩)]⟩ : Reg Nat)
    (⟨[], [1], [0], [(5, ⟨[EMPTY], [], []⟩)]⟩ : Reg Nat) 0 (by decide)

/-! Part: C10 — HasComponent ignores aliveness -/

/-- C10:.  `HasComponent<T>` never checks aliveness: concretely,
create entity `0`, give it component type `0`, destroy it, create a
fresh entity reusing slot `0` (handle `MakeEntity 0 1`), give that one
component type `0`.  The stale handle `0 = MakeEntity 0 0` is dead
(`IsAlive = false`) yet `HasComponent` reports `true` for it — it
answers for the slot's current occupant. -/
theorem hasComponent_stale_handle :
    ((Reg.addComponent 0 0 7 (Reg.create (Reg.empty (α := Nat))).2).bind
      (fun r2 => (Reg.destroy 0 r2).bind
        (fun r3 => (Reg.addComponent 0 (Reg.create r3).1 9 (Reg.create r3).2).map
          (fun r5 => (Reg.isAlive r5 0, Reg.hasComponent 0 0 r5))))) =
      some (false, true) := by
  decide

/-- C++ `DestroyEntity` on a live handle bumps exactly that slot's stored
generation by one (no `uint32` wrap is possible because the stored value
equalled the 12-bit handle generation). -/
theorem destroy_gens_facts {α : Type} {r r' : Reg α} {id : Nat}
    (ha : r.isAlive id = true) (h : Reg.destroy id r = some r') :
    r'.generations.length = r.generations.length ∧
      r'.generations.getD (EntityIndex id) 0 = EntityGeneration id + 1 ∧
      ∀ i, r.generations.getD i 0 ≤ r'.generations.getD i 0 := by
  unfold Reg.destroy at h
  rw [if_neg (not_not_intro ha)] at h
  cases hps : Reg.poolsRemove (EntityIndex id) r.pools with
  | none =>
    rw [hps] at h
    exact Option.noConfusion h
  | some ps =>
    rw [hps] at h
    have hr' := Option.some.inj h
    have hgen : r'.generations =
        r.generations.set (EntityIndex id)
          ((r.generations.getD (EntityIndex id) 0 + 1) % U32) := by
      rw [← hr']
    simp only [Reg.isAlive, Bool.and_eq_true, decide_eq_true_eq] at ha
    have hglt : EntityGeneration id < 4096 := EntityGeneration_lt id
    have hnw : (r.generations.getD (EntityIndex id) 0 + 1) % U32 =
        r.generations.getD (EntityIndex id) 0 + 1 := by
      apply Nat.mod_eq_of_lt
      unfold U32
      omega
    refine ⟨by rw [hgen, List.length_set], ?_, ?_⟩
    · rw [hgen, getD_set_eq _ _ _ _ ha.1, hnw, ha.2]
    · intro i
      by_cases hii : i = EntityIndex id
      · subst hii
        rw [hgen, getD_set_eq _ _ _ _ ha.1, hnw]
        omega
      · rw [hgen, getD_set_ne _ _ _ _ _ (fun hEq => hii hEq.symm)]

/-- C++ `DestroyEntity` never touches any slot's generation other than by
bumping, and `CreateEntity` only appends slots: generations grow
monotonically along any lifecycle sequence. -/
theorem execL_gens_mono {α : Type} :
    ∀ (ops : List LOp) (r r' : Reg α), execL ops r = some r' →
      r.generations.length ≤ r'.generations.length ∧
        ∀ i, r.generations.getD i 0 ≤ r'.generations.getD i 0 := by
  intro ops
  induction ops with
  | nil =>
    intro r r' h
    rw [← Option.some.inj h]
    exact ⟨le_refl _, fun i => le_refl _⟩
  | cons op rest ih =>
    intro r r' h
    cases op with
    | lcreate =>
      unfold execL at h
      have hstep := ih (Reg.create r).2 r' h
      have hcr : r.generations.length ≤ (Reg.create r).2.generations.length ∧
          ∀ i, r.generations.getD i 0 ≤ (Reg.create r).2.generations.getD i 0 := by
        unfold Reg.create
        cases hfl : r.freeList with
        | nil =>
          refine ⟨by simp, ?_⟩
          intro i
          by_cases hi : i < r.generations.length
          · rw [getD_append_lt _ _ _ _ hi]
          · rw [getD_eq_default _ _ _ (by omega)]
            omega
        | cons f fs => exact ⟨le_refl _, fun i => le_refl _⟩
      exact ⟨le_trans hcr.1 hstep.1, fun i => le_trans (hcr.2 i) (hstep.2 i)⟩
    | ldestroy id =>
      unfold execL at h
      cases hd : Reg.destroy id r with
      | none =>
        rw [hd] at h
        exact Option.noConfusion h
      | some r1 =>
        rw [hd] at h
        have hstep := ih r1 r' h
        by_cases ha : r.isAlive id = true
        · have hf := destroy_gens_facts ha hd
          simp only [Reg.isAlive, Bool.and_eq_true, decide_eq_true_eq] at ha
          refine ⟨le_trans (le_of_eq hf.1.symm) hstep.1, ?_⟩
          intro i
          exact le_trans (hf.2.2 i) (hstep.2 i)
        · unfold Reg.destroy at hd
          rw [if_pos (by simpa using ha)] at hd
          rw [Option.some.inj hd]
          exact hstep

/-- Closed form of the recycle loop: after `k ≤ 4096` destroy/create
rounds on slot 0, the registry holds the single live handle
`MakeEntity 0 k` (generation masked to 12 bits) while the stored
generation counter is the unmasked `k`. -/
theorem recycleN_closed :
    ∀ k, k ≤ 4096 →
      recycleN k (Reg.create (Reg.empty (α := Nat))).2 =
        some ⟨[MakeEntity 0 k], [k], [], []⟩
  | 0, _ => by decide
  | (k+1), h => by
      have ih := recycleN_closed k (by omega)
      simp only [recycleN]
      rw [ih]
      have hidx : EntityIndex (MakeEntity 0 k) = 0 := by
        rw [EntityIndex_MakeEntity]
      have hgen : EntityGeneration (MakeEntity 0 k) = k := by
        rw [EntityGeneration_MakeEntity]
        exact Nat.mod_eq_of_lt (by omega)
      have halive :
          Reg.isAlive (⟨[MakeEntity 0 k], [k], [], []⟩ : Reg Nat) (MakeEntity 0 k) = true := by
        simp [Reg.isAlive, hidx, hgen, List.getD]
      have hmod : (k + 1) % U32 = k + 1 := by
        apply Nat.mod_eq_of_lt
        unfold U32
        omega
      have hdestroy :
          Reg.destroy (MakeEntity 0 k) (⟨[MakeEntity 0 k], [k], [], []⟩ : Reg Nat) =
            some ⟨[], [k+1], [0], []⟩ := by
        unfold Reg.destroy
        rw [if_neg (not_not_intro halive)]
        simp [Reg.poolsRemove, hidx, List.erase_cons_head, hmod, List.getD]
      simp [recycleOnce, List.getD, hdestroy, Reg.create]

/-! Part: C2 — generational safety -/

/-- C2 counterexample:  Take `e = MakeEntity 0 0`, the handle of
the very first `CreateEntity` (destroyed in the first recycle round).
After slot 0 has been destroyed 4096 times in total, the next
`CreateEntity` pops slot 0 and returns
`MakeEntity(0, generations[0] & 0xFFF) = MakeEntity 0 0 = e` — the
*same* handle `e2 = e`, contradicting `e2 ≠ e`; moreover
`IsAlive(e2) = false` (the 12-bit handle generation `0` is compared
against the unmasked stored counter `4096`), contradicting
`IsAlive(e2) = true`. -/
theorem generational_safety_cex :
    (Reg.create (Reg.empty (α := Nat))).1 = MakeEntity 0 0 ∧
      recycleN 4095 (Reg.create (Reg.empty (α := Nat))).2 =
        some ⟨[MakeEntity 0 4095], [4095], [], []⟩ ∧
      Reg.destroy (MakeEntity 0 4095)
          (⟨[MakeEntity 0 4095], [4095], [], []⟩ : Reg Nat) =
        some ⟨[], [4096], [0], []⟩ ∧
      (Reg.create (⟨[], [4096], [0], []⟩ : Reg Nat)).1 = MakeEntity 0 0 ∧
      Reg.isAlive (Reg.create (⟨[], [4096], [0], []⟩ : Reg Nat)).2 (MakeEntity 0 0) =
        false := by
  exact ⟨by decide, recycleN_closed 4095 (by omega), by decide, by decide, by decide⟩

/-- C2 amended:  After `DestroyEntity(e)` on a live `e`,
`IsAlive(e)` is false and stays false along any further
create/destroy sequence; and a subsequent `CreateEntity` that pops
`e`'s slot off the free-list returns `e2` with `e2 ≠ e` and
`IsAlive(e2) = true` *provided the slot's stored generation is still
below 4096*.  (At stored generation 4096 the handle comparison in
`IsAlive` fails against the unmasked counter and the returned handle
can equal `e` again — see the counterexample.) -/
theorem generational_safety_amended {α : Type} (r r' : Reg α) (e : Nat)
    (halive : r.isAlive e = true) (hd : Reg.destroy e r = some r') :
    r'.isAlive e = false ∧
      ∀ (ops : List LOp) (r2 : Reg α), execL ops r' = some r2 →
        r2.isAlive e = false ∧
          (r2.freeList.head? = some (EntityIndex e) →
            r2.generations.getD (EntityIndex e) 0 < 4096 →
            (Reg.create r2).1 ≠ e ∧
              (Reg.create r2).2.isAlive (Reg.create r2).1 = true) := by
  have hf := destroy_gens_facts halive hd
  simp only [Reg.isAlive, Bool.and_eq_true, decide_eq_true_eq] at halive
  constructor
  · rw [Bool.eq_false_iff]
    intro hcon
    simp only [Reg.isAlive, Bool.and_eq_true, decide_eq_true_eq] at hcon
    have h2 := hcon.2
    rw [hf.2.1] at h2
    omega
  · intro ops r2 hexec
    have hmono := execL_gens_mono ops r' r2 hexec
    have hge : EntityGeneration e + 1 ≤ r2.generations.getD (EntityIndex e) 0 := by
      have := hmono.2 (EntityIndex e)
      rw [hf.2.1] at this
      exact this
    constructor
    · rw [Bool.eq_false_iff]
      intro hcon
      simp only [Reg.isAlive, Bool.and_eq_true, decide_eq_true_eq] at hcon
      omega
    · intro hhead hlt
      cases hfl : r2.freeList with
      | nil =>
        rw [hfl] at hhead
        exact Option.noConfusion hhead
      | cons f fs =>
        rw [hfl] at hhead
        have hfe : f = EntityIndex e := by
          simpa using hhead
        subst hfe
        have hcr : Reg.create r2 =
            (MakeEntity (EntityIndex e) (r2.generations.getD (EntityIndex e) 0),
              { alive := r2.alive ++
                  [MakeEntity (EntityIndex e) (r2.generations.getD (EntityIndex e) 0)]
              , generations := r2.generations
              , freeList := fs
              , pools := r2.pools }) := by
          unfold Reg.create
          rw [hfl]
        rw [hcr]
        have hg2 : EntityGeneration
            (MakeEntity (EntityIndex e) (r2.generations.getD (EntityIndex e) 0)) =
            r2.generations.getD (EntityIndex e) 0 := by
          rw [EntityGeneration_MakeEntity]
          exact Nat.mod_eq_of_lt hlt
        have hi2 : EntityIndex
            (MakeEntity (EntityIndex e) (r2.generations.getD (EntityIndex e) 0)) =
            EntityIndex e := by
          rw [EntityIndex_MakeEntity]
          exact Nat.mod_eq_of_lt (EntityIndex_lt e)
        constructor
        · intro hEq
          have := congrArg EntityGeneration hEq
          rw [hg2] at this
          rw [this] at hge
          omega
        · simp only [Reg.isAlive, Bool.and_eq_true, decide_eq_true_eq]
          rw [hi2, hg2]
          have hlen : EntityIndex e < r2.generations.length := by
            have h1 := halive.1
            have h2 := hf.1
            have h3 := hmono.1
            omega
          exact ⟨hlen, rfl⟩

/-- Witness for the amended C2 on a one-slot registry: create, destroy,
then (empty further sequence) recreate from the free-list. -/
theorem generational_safety_amended_witness :
    (Reg.isAlive (⟨[0], [0], [], []⟩ : Reg Nat) 0 = true) ∧
      (Reg.destroy 0 (⟨[0], [0], [], []⟩ : Reg Nat) =
        some ⟨[], [1], [0], []⟩) ∧
      ((⟨[], [1], [0], []⟩ : Reg Nat).isAlive 0 = false ∧
        ∀ (ops : List LOp) (r2 : Reg Nat),
          execL ops (⟨[], [1], [0], []⟩ : Reg Nat) = some r2 →
            r2.isAlive 0 = false ∧
              (r2.freeList.head? = some (EntityIndex 0) →
                r2.generations.getD (EntityIndex 0) 0 < 4096 →
                (Reg.create r2).1 ≠ 0 ∧
                  (Reg.create r2).2.isAlive (Reg.create r2).1 = true)) :=
  ⟨by decide, by decide,
    generational_safety_amended (⟨[0], [0], [], []⟩ : Reg Nat)
      (⟨[], [1], [0], []⟩ : Reg Nat) 0 (by decide) (by decide)⟩

/-! Part: C5 — CreateEntity can return a dead-on-arrival handle -/

/-- C5 (code bug):  In the reachable state where slot 0 has been
destroyed 4096 times (stored generation 4096, slot on the free-list),
`CreateEntity` returns `MakeEntity(0, 4096 & 0xFFF) = MakeEntity 0 0`,
and `IsAlive` on that brand-new handle is **false**: the 12-bit handle
generation 0 is compared against the unmasked stored counter 4096.
The documented intent (Entity.hpp: generations "wrap at 4,096
recycles/slot") requires masking the stored side as well. -/
theorem createEntity_dead_on_arrival :
    ((recycleN 4095 (Reg.create (Reg.empty (α := Nat))).2).bind
        (fun r => Reg.destroy (MakeEntity 0 4095) r)) =
      some ⟨[], [4096], [0], []⟩ ∧
      Reg.isAlive (Reg.create (⟨[], [4096], [0], []⟩ : Reg Nat)).2
        (Reg.create (⟨[], [4096], [0], []⟩ : Reg Nat)).1 = false := by
  refine ⟨?_, by decide⟩
  rw [recycleN_closed 4095 (by omega)]
  decide

/-- Closed form of `n` straight creates from the empty registry. -/
theorem createN_empty {α : Type} :
    ∀ n, n ≤ U32 →
      createN n (Reg.empty (α := α)) =
        ⟨(List.range n).map (fun i => MakeEntity i 0), List.replicate n 0, [], []⟩
  | 0, _ => rfl
  | (n+1), h => by
      have ih := createN_empty (α := α) n (by omega)
      show (Reg.create (createN n (Reg.empty (α := α)))).2 = _
      rw [ih]
      have hmod : (List.replicate n (0 : Nat)).length % U32 = n := by
        rw [List.length_replicate]
        exact Nat.mod_eq_of_lt (by omega)
      have hgetD : ((List.replicate n (0 : Nat)) ++ [0]).getD n 0 = 0 := by
        rw [getD_append_ge _ _ _ _ (by rw [List.length_replicate])]
        simp [List.getD]
      unfold Reg.create
      simp only [hmod, hgetD]
      rw [← List.replicate_succ' n (0 : Nat)]
      rw [List.range_succ, List.map_append]
      simp

/-- On an empty free-list, `CreateEntity` returns the handle
`MakeEntity(m_generations.size(), 0)` (before the push_back the new
slot's generation is 0). -/
theorem create_fresh {α : Type} (r : Reg α)
    (hfree : r.freeList = []) (hlen : r.generations.length < U32) :
    (Reg.create r).1 = MakeEntity r.generations.length 0 := by
  have hcr : (Reg.create r).1 =
      MakeEntity (r.generations.length % U32)
        ((r.generations ++ [0]).getD (r.generations.length % U32) 0) := by
    unfold Reg.create
    rw [hfree]
  have hmod : r.generations.length % U32 = r.generations.length :=
    Nat.mod_eq_of_lt hlen
  have hgetD : (r.generations ++ [0]).getD r.generations.length 0 = 0 := by
    rw [getD_append_ge _ _ _ _ (le_refl _)]
    simp [List.getD]
  rw [hcr, hmod, hgetD]

/-- C9 counterexample:  After 2^20 = 1048576 creates the next
`CreateEntity` needs slot index 2^20, which `MakeEntity` silently
masks to 20 bits: the returned handle is `MakeEntity 0 0` — the very
handle of the still-alive first entity (an alias), with no assert or
reported fault anywhere on the path (`Reg.create` is total). -/
theorem create_index_wrap_cex :
    (Reg.create (createN 1048576 (Reg.empty (α := Nat)))).1 = MakeEntity 0 0 ∧
      MakeEntity 0 0 ∈ (createN 1048576 (Reg.empty (α := Nat))).alive := by
  have hc := createN_empty (α := Nat) 1048576 (by unfold U32; omega)
  have hfree : (createN 1048576 (Reg.empty (α := Nat))).freeList = [] := by
    rw [hc]
  have hlen2 : (createN 1048576 (Reg.empty (α := Nat))).generations.length = 1048576 := by
    rw [hc]
    show (List.replicate 1048576 (0 : Nat)).length = 1048576
    rw [List.length_replicate]
  constructor
  · rw [create_fresh _ hfree (by rw [hlen2]; unfold U32; omega), hlen2]
    decide
  · have halive : (createN 1048576 (Reg.empty (α := Nat))).alive =
        (List.range 1048576).map (fun i => MakeEntity i 0) := by
      rw [hc]
    rw [halive]
    exact List.mem_map.2 ⟨0, List.mem_range.2 (by omega), rfl⟩

/-- C9 amended:  When the free-list is empty, `CreateEntity`
always succeeds and returns `MakeEntity(m_generations.size(), 0)`;
the slot index is silently truncated to 20 bits inside `MakeEntity`
(`idx & INDEX_MASK`), so at or beyond 2^20 slots the returned handle
aliases the slot `size % 2^20` instead of signalling any fault. -/
theorem create_index_wrap_amended {α : Type} (r : Reg α)
    (hfree : r.freeList = []) (hlen : r.generations.length < U32) :
    (Reg.create r).1 = MakeEntity r.generations.length 0 ∧
      EntityIndex (Reg.create r).1 = r.generations.length % 1048576 := by
  refine ⟨create_fresh r hfree hlen, ?_⟩
  rw [create_fresh r hfree hlen, EntityIndex_MakeEntity]

/-- Witness for the amended C9 at a small registry with two slots. -/
theorem create_index_wrap_amended_witness :
    ((⟨[7, 9], [3, 4], [], []⟩ : Reg Nat).freeList = []) ∧
      ((⟨[7, 9], [3, 4], [], []⟩ : Reg Nat).generations.length < U32) ∧
      ((Reg.create (⟨[7, 9], [3, 4], [], []⟩ : Reg Nat)).1 = MakeEntity 2 0 ∧
        EntityIndex (Reg.create (⟨[7, 9], [3, 4], [], []⟩ : Reg Nat)).1 = 2 % 1048576) :=
  ⟨by decide, by decide,
    create_index_wrap_amended (⟨[7, 9], [3, 4], [], []⟩ : Reg Nat) (by decide) (by decide)⟩

theorem poolOf?_mem {α : Type} :
    ∀ (ps : List (Nat × Pool α)) (t : Nat) (p : Pool α),
      Reg.poolOf? t ps = some p → (t, p) ∈ ps
  | [], t, p, h => by simp [Reg.poolOf?] at h
  | (k, q) :: rest, t, p, h => by
      unfold Reg.poolOf? at h
      by_cases hk : k = t
      · rw [if_pos hk] at h
        rw [← Option.some.inj h, hk]
        exact List.mem_cons_self _ _
      · rw [if_neg hk] at h
        exact List.mem_cons_of_mem _ (poolOf?_mem rest t p h)

theorem fspLoop_none {α : Type} :
    ∀ (l : List (Option (Pool α))) (res : Option (Pool α)) (m : Nat),
      none ∈ l → fspLoop l res m = none
  | [], _, _, h => by simp at h
  | none :: _, _, _, _ => rfl
  | some p :: rest, res, m, h => by
      have hmem : (none : Option (Pool α)) ∈ rest := by
        rcases List.mem_cons.1 h with h1 | h1
        · exact Option.noConfusion h1
        · exact h1
      unfold fspLoop
      by_cases hlt : p.dense.length < m
      · rw [if_pos hlt]
        exact fspLoop_none rest _ _ hmem
      · rw [if_neg hlt]
        exact fspLoop_none rest _ _ hmem

/-- C8:.  If any required component type has never had a pool
created, `View<Ts...>` short-circuits: `FindSmallestPool` returns
`nullptr` and the visitor is invoked zero times (no pool is
iterated). -/
theorem view_missing_pool_empty {α : Type} (ts : List Nat) (t : Nat) (r : Reg α)
    (ht : t ∈ ts) (hm : Reg.poolOf? t r.pools = none) :
    findSmallestPool ts r = none ∧ viewVisits ts r = [] := by
  have hnone : (none : Option (Pool α)) ∈ ts.map (fun t => Reg.poolOf? t r.pools) := by
    rw [List.mem_map]
    exact ⟨t, ht, hm⟩
  have hf : findSmallestPool ts r = none := fspLoop_none _ _ _ hnone
  refine ⟨hf, ?_⟩
  unfold viewVisits
  rw [hf]

/-- Witness for C8: a registry holding only a pool for type 0,
queried with `View<0, 1>`. -/
theorem view_missing_pool_empty_witness :
    ((1 : Nat) ∈ [0, 1]) ∧
      (Reg.poolOf? 1 (⟨[0], [0], [], [(0, ⟨[0], [0], [10]⟩)]⟩ : Reg Nat).pools = none) ∧
      (findSmallestPool [0, 1] (⟨[0], [0], [], [(0, ⟨[0], [0], [10]⟩)]⟩ : Reg Nat) = none ∧
        viewVisits [0, 1] (⟨[0], [0], [], [(0, ⟨[0], [0], [10]⟩)]⟩ : Reg Nat) = []) :=
  ⟨by decide, by decide,
    view_missing_pool_empty [0, 1] 1 (⟨[0], [0], [], [(0, ⟨[0], [0], [10]⟩)]⟩ : Reg Nat)
      (by decide) (by decide)⟩

/-! Part: C3 — query completeness of View -/

theorem filterMap_nodup_of :
    ∀ (l : List Nat) (f : Nat → Option Nat), l.Nodup →
      (∀ a, a ∈ l → ∀ a', a' ∈ l → ∀ b, f a = some b → f a' = some b → a = a') →
      (l.filterMap f).Nodup
  | [], _, _, _ => List.nodup_nil
  | a :: t, f, hnd, hinj => by
      rw [List.filterMap_cons]
      rcases List.nodup_cons.1 hnd with ⟨hna, hndt⟩
      have ihr := filterMap_nodup_of t f hndt
        (fun x hx x' hx' b h1 h2 =>
          hinj x (List.mem_cons_of_mem _ hx) x' (List.mem_cons_of_mem _ hx') b h1 h2)
      cases hfa : f a with
      | none => exact ihr
      | some b =>
          refine List.nodup_cons.2 ⟨?_, ihr⟩
          intro hbmem
          rcases List.mem_filterMap.1 hbmem with ⟨a', ha', hfa'⟩
          have haa : a = a' :=
            hinj a (List.mem_cons_self _ _) a' (List.mem_cons_of_mem _ ha') b hfa hfa'
          rw [haa] at hna
          exact hna ha'

/-- Characterisation of the `View` visit list through the driving
(smallest) pool: visits are exactly the handles of indices passing the
`HasAllAt` intersection test, each exactly once. -/
theorem viewVisits_char {α : Type} (ts : List Nat) (r : Reg α) (smallest : Pool α)
    (hf : findSmallestPool ts r = some smallest)
    (hnd : smallest.dense.Nodup)
    (hb : ∀ i ∈ smallest.dense, i < 1048576 ∧ i < r.generations.length)
    (hmm : ∀ idx, hasAllAt ts idx r = true → idx ∈ smallest.dense) :
    (viewVisits ts r).Nodup ∧
      ∀ idx, idx < 1048576 →
        (MakeEntity idx (r.generations.getD idx 0) ∈ viewVisits ts r ↔
          hasAllAt ts idx r = true) := by
  have hview : viewVisits ts r =
      smallest.dense.filterMap (fun idx =>
        if ¬ hasAllAt ts idx r then none
        else if r.generations.length ≤ idx then none
        else some (MakeEntity idx (r.generations.getD idx 0))) := by
    unfold viewVisits
    rw [hf]
    show (if smallest.dense.length = 0 then ([] : List Nat)
          else smallest.dense.filterMap (fun idx =>
            if ¬ hasAllAt ts idx r then none
            else if r.generations.length ≤ idx then none
            else some (MakeEntity idx (r.generations.getD idx 0)))) = _
    by_cases h0 : smallest.dense.length = 0
    · rw [if_pos h0, List.length_eq_zero.1 h0]
      rfl
    · rw [if_neg h0]
  have hfsome : ∀ a b,
      (if ¬ hasAllAt ts a r then none
       else if r.generations.length ≤ a then none
       else some (MakeEntity a (r.generations.getD a 0))) = some b →
      hasAllAt ts a r = true ∧ a < r.generations.length ∧
        b = MakeEntity a (r.generations.getD a 0) := by
    intro a b h
    by_cases h1 : hasAllAt ts a r = true
    · by_cases h2 : r.generations.length ≤ a
      · rw [if_neg (not_not_intro h1), if_pos h2] at h
        exact Option.noConfusion h
      · rw [if_neg (not_not_intro h1), if_neg h2] at h
        exact ⟨h1, by omega, (Option.some.inj h).symm⟩
    · rw [if_pos h1] at h
      exact Option.noConfusion h
  constructor
  · rw [hview]
    apply filterMap_nodup_of _ _ hnd
    intro a ha a' ha' b h1 h2
    rcases hfsome a b h1 with ⟨-, -, hb1⟩
    rcases hfsome a' b h2 with ⟨-, -, hb2⟩
    have hmk : MakeEntity a (r.generations.getD a 0) =
        MakeEntity a' (r.generations.getD a' 0) := by rw [← hb1, ← hb2]
    have := (MakeEntity_inj hmk).1
    have hal := (hb a ha).1
    have hal' := (hb a' ha').1
    rw [Nat.mod_eq_of_lt hal, Nat.mod_eq_of_lt hal'] at this
    exact this
  · intro idx hidx
    rw [hview]
    constructor
    · intro hmem
      rcases List.mem_filterMap.1 hmem with ⟨a, ha, hfa⟩
      rcases hfsome a _ hfa with ⟨hall, -, hbv⟩
      have hmk : MakeEntity a (r.generations.getD a 0) =
          MakeEntity idx (r.generations.getD idx 0) := hbv.symm
      have heq := (MakeEntity_inj hmk).1
      have hal := (hb a ha).1
      rw [Nat.mod_eq_of_lt hal, Nat.mod_eq_of_lt hidx] at heq
      rw [← heq]
      exact hall
    · intro hall
      have hdm := hmm idx hall
      apply List.mem_filterMap.2
      refine ⟨idx, hdm, ?_⟩
      rw [if_neg (not_not_intro hall), if_neg (by have := (hb idx hdm).2; omega)]

theorem hasAllAt_pair {α : Type} (tA tB idx : Nat) (r : Reg α) :
    hasAllAt [tA, tB] idx r = true ↔
      hasAt tA idx r = true ∧ hasAt tB idx r = true := by
  simp [hasAllAt]

/-- C3: (*Query completeness*).  On a well-formed registry with a
pure (non-mutating) visitor, `View<A, B>` visits exactly the entities
owning both `A` and `B`, each exactly once — the characterisation
`visited ↔ HasAt A ∧ HasAt B` does not mention which of the two pools
is smaller, so the visited set is independent of which pool
`FindSmallestPool` picks as the driver. -/
theorem view_query_completeness {α : Type} (tA tB : Nat) (r : Reg α) (hwf : RegWF r) :
    (viewVisits [tA, tB] r).Nodup ∧
      ∀ idx, idx < 1048576 →
        (MakeEntity idx (r.generations.getD idx 0) ∈ viewVisits [tA, tB] r ↔
          hasAt tA idx r = true ∧ hasAt tB idx r = true) := by
  cases hA : Reg.poolOf? tA r.pools with
  | none =>
    have hempty := view_missing_pool_empty [tA, tB] tA r (by simp) hA
    rw [hempty.2]
    refine ⟨List.nodup_nil, ?_⟩
    intro idx hidx
    constructor
    · intro hmem
      simp at hmem
    · intro hall
      have := hall.1
      unfold hasAt at this
      rw [hA] at this
      exact Bool.noConfusion this
  | some pA =>
    cases hB : Reg.poolOf? tB r.pools with
    | none =>
      have hempty := view_missing_pool_empty [tA, tB] tB r (by simp) hB
      rw [hempty.2]
      refine ⟨List.nodup_nil, ?_⟩
      intro idx hidx
      constructor
      · intro hmem
        simp at hmem
      · intro hall
        have := hall.2
        unfold hasAt at this
        rw [hB] at this
        exact Bool.noConfusion this
    | some pB =>
      have hwfA : Pool.WF pA := hwf.1 _ (poolOf?_mem _ _ _ hA)
      have hwfB : Pool.WF pB := hwf.1 _ (poolOf?_mem _ _ _ hB)
      have hbA : ∀ i ∈ pA.dense, i < 1048576 ∧ i < r.generations.length :=
        hwf.2 _ (poolOf?_mem _ _ _ hA)
      have hbB : ∀ i ∈ pB.dense, i < 1048576 ∧ i < r.generations.length :=
        hwf.2 _ (poolOf?_mem _ _ _ hB)
      have hszA : pA.dense.length < SIZE_MAX := by
        have h1 := hwfA.dense_length_le
        have h2 := hwfA.2.1
        unfold EMPTY at h2
        unfold SIZE_MAX
        omega
      have hfsp : findSmallestPool [tA, tB] r =
          some (if pB.dense.length < pA.dense.length then pB else pA) := by
        unfold findSmallestPool
        show fspLoop [Reg.poolOf? tA r.pools, Reg.poolOf? tB r.pools] none SIZE_MAX = _
        rw [hA, hB]
        simp only [fspLoop]
        rw [if_pos hszA]
        by_cases hcmp : pB.dense.length < pA.dense.length
        · rw [if_pos hcmp, if_pos hcmp]
        · rw [if_neg hcmp, if_neg hcmp]
      have hchar := viewVisits_char [tA, tB] r _ hfsp
        (by
          by_cases hcmp : pB.dense.length < pA.dense.length
          · rw [if_pos hcmp]
            exact hwfB.dense_nodup
          · rw [if_neg hcmp]
            exact hwfA.dense_nodup)
        (by
          by_cases hcmp : pB.dense.length < pA.dense.length
          · rw [if_pos hcmp]
            exact hbB
          · rw [if_neg hcmp]
            exact hbA)
        (by
          intro idx hall
          rcases (hasAllAt_pair tA tB idx r).1 hall with ⟨h1, h2⟩
          unfold hasAt at h1 h2
          rw [hA] at h1
          rw [hB] at h2
          by_cases hcmp : pB.dense.length < pA.dense.length
          · rw [if_pos hcmp]
            exact (hwfB.mem_dense_iff idx).2 h2
          · rw [if_neg hcmp]
            exact (hwfA.mem_dense_iff idx).2 h1)
      refine ⟨hchar.1, ?_⟩
      intro idx hidx
      rw [hchar.2 idx hidx]
      exact hasAllAt_pair tA tB idx r

/-- Witness for C3: pools `{0, 1}` for type 0 and `{1, 2}` for type 1;
the intersection is the single entity index 1. -/
theorem view_query_completeness_witness :
    RegWF (⟨[0, 1, 2], [0, 0, 0], [],
        [(0, ⟨[0, 1], [0, 1], [10, 11]⟩),
         (1, ⟨[EMPTY, 0, 1], [1, 2], [20, 21]⟩)]⟩ : Reg Nat) ∧
      ((viewVisits [0, 1] (⟨[0, 1, 2], [0, 0, 0], [],
          [(0, ⟨[0, 1], [0, 1], [10, 11]⟩),
           (1, ⟨[EMPTY, 0, 1], [1, 2], [20, 21]⟩)]⟩ : Reg Nat)).Nodup ∧
        ∀ idx, idx < 1048576 →
          (MakeEntity idx ((⟨[0, 1, 2], [0, 0, 0], [],
              [(0, ⟨[0, 1], [0, 1], [10, 11]⟩),
               (1, ⟨[EMPTY, 0, 1], [1, 2], [20, 21]⟩)]⟩ : Reg Nat).generations.getD idx 0) ∈
              viewVisits [0, 1] (⟨[0, 1, 2], [0, 0, 0], [],
                [(0, ⟨[0, 1], [0, 1], [10, 11]⟩),
                 (1, ⟨[EMPTY, 0, 1], [1, 2], [20, 21]⟩)]⟩ : Reg Nat) ↔
            hasAt 0 idx (⟨[0, 1, 2], [0, 0, 0], [],
              [(0, ⟨[0, 1], [0, 1], [10, 11]⟩),
               (1, ⟨[EMPTY, 0, 1], [1, 2], [20, 21]⟩)]⟩ : Reg Nat) = true ∧
              hasAt 1 idx (⟨[0, 1, 2], [0, 0, 0], [],
                [(0, ⟨[0, 1], [0, 1], [10, 11]⟩),
                 (1, ⟨[EMPTY, 0, 1], [1, 2], [20, 21]⟩)]⟩ : Reg Nat) = true)) :=
  ⟨by decide,
    view_query_completeness 0 1 (⟨[0, 1, 2], [0, 0, 0], [],
      [(0, ⟨[0, 1], [0, 1], [10, 11]⟩),
       (1, ⟨[EMPTY, 0, 1], [1, 2], [20, 21]⟩)]⟩ : Reg Nat) (by decide)⟩

/-! Part: C4 — destroyed/removed snapshot entries are *not* skipped -/

theorem addComponent_gens {α : Type} {t id : Nat} {v : α} {r r' : Reg α}
    (h : Reg.addComponent t id v r = some r') : r'.generations = r.generations := by
  unfold Reg.addComponent at h
  split at h
  · exact Option.noConfusion h
  · split at h
    · exact Option.noConfusion h
    · rw [← Option.some.inj h]

theorem removeComponent_gens {α : Type} {t id : Nat} {r r' : Reg α}
    (h : Reg.removeComponent t id r = some r') : r'.generations = r.generations := by
  unfold Reg.removeComponent at h
  split at h
  · rw [← Option.some.inj h]
  · split at h
    · exact Option.noConfusion h
    · rw [← Option.some.inj h]

theorem destroy_gens_len {α : Type} {id : Nat} {r r' : Reg α}
    (h : Reg.destroy id r = some r') : r'.generations.length = r.generations.length := by
  unfold Reg.destroy at h
  split at h
  · rw [← Option.some.inj h]
  · split at h
    · exact Option.noConfusion h
    · rw [← Option.some.inj h]
      simp

theorem create_gens_len {α : Type} (r : Reg α) :
    r.generations.length ≤ (Reg.create r).2.generations.length := by
  unfold Reg.create
  cases hfl : r.freeList with
  | nil => simp
  | cons f fs => exact le_refl _

theorem attachAll_gens {α : Type} :
    ∀ (comps : List (Nat × α)) (id : Nat) (r r1 : Reg α),
      attachAll comps id r = some r1 → r1.generations = r.generations
  | [], _, r, r1, h => by rw [← Option.some.inj h]
  | (t, v) :: rest, id, r, r1, h => by
      simp only [attachAll] at h
      split at h
      · exact Option.noConfusion h
      · rename_i r2 ha
        rw [attachAll_gens rest id r2 r1 h, addComponent_gens ha]

theorem runCmd_gens_len {α : Type} (c : Cmd α) (r r1 : Reg α)
    (nc : List (Nat × List Nat)) (h : runCmd c r = some (r1, nc)) :
    r.generations.length ≤ r1.generations.length := by
  cases c with
  | ccreate comps =>
    simp only [runCmd] at h
    split at h
    · exact Option.noConfusion h
    · rename_i r2 ha
      have h2 : r2 = r1 := congrArg Prod.fst (Option.some.inj h)
      rw [← h2, attachAll_gens _ _ _ _ ha]
      exact create_gens_len r
  | cdestroy id =>
    simp only [runCmd] at h
    split at h
    · exact Option.noConfusion h
    · rename_i r2 hd
      have h2 : r2 = r1 := congrArg Prod.fst (Option.some.inj h)
      rw [← h2, destroy_gens_len hd]
  | cremove t id =>
    simp only [runCmd] at h
    split at h
    · exact Option.noConfusion h
    · rename_i r2 hd
      have h2 : r2 = r1 := congrArg Prod.fst (Option.some.inj h)
      rw [← h2, removeComponent_gens hd]

theorem runCmds_gens_len {α : Type} :
    ∀ (cs : List (Cmd α)) (r : Reg α) (out : Reg α × List (Nat × List Nat)),
      runCmds cs r = some out → r.generations.length ≤ out.1.generations.length
  | [], r, out, h => by
      rw [← Option.some.inj h]
  | c :: cs, r, out, h => by
      simp only [runCmds] at h
      split at h
      · exact Option.noConfusion h
      · rename_i ra na h1
        split at h
        · exact Option.noConfusion h
        · rename_i rb nb h2
          have hstep := runCmd_gens_len c r ra na h1
          have hrest := runCmds_gens_len cs ra (rb, nb) h2
          have hout : out.1 = rb := by
            rw [← Option.some.inj h]
          rw [hout]
          exact le_trans hstep hrest

theorem eachGo_visits {α : Type} (t : Nat) (cb : Nat → List (Cmd α)) :
    ∀ (rem : List Nat) (rc : Reg α) (vis : List Nat)
      (created : List (Nat × List Nat)) (out : Reg α × List Nat × List (Nat × List Nat)),
      (∀ idx ∈ rem, idx < 1048576 ∧ idx < rc.generations.length) →
      eachGo t cb rem rc vis created = some out →
      out.2.1.map EntityIndex = vis.map EntityIndex ++ rem
  | [], rc, vis, created, out, _, h => by
      rw [← Option.some.inj h]
      simp
  | idx :: rest, rc, vis, created, out, hbound, h => by
      simp only [eachGo] at h
      have hlt := hbound idx (List.mem_cons_self _ _)
      rw [if_neg (by omega : ¬ rc.generations.length ≤ idx)] at h
      split at h
      · exact Option.noConfusion h
      · rename_i p hp
        split at h
        · exact Option.noConfusion h
        · rename_i hhas
          split at h
          · exact Option.noConfusion h
          · rename_i r1 newc hrun
            have hmono : rc.generations.length ≤ r1.generations.length :=
              runCmds_gens_len _ _ (r1, newc) hrun
            have hrec := eachGo_visits t cb rest r1
              (vis ++ [MakeEntity idx (rc.generations.getD idx 0)]) (created ++ newc) out
              (by
                intro i hi
                have := hbound i (List.mem_cons_of_mem _ hi)
                omega)
              h
            rw [hrec, List.map_append]
            simp [EntityIndex_MakeEntity, Nat.mod_eq_of_lt hlt.1]

/-- C4 amended:  During `Each<T>` the only per-index guard is
`idx >= m_generations.size()`; the generation table never shrinks, so
on a well-formed registry *every* snapshot index is visited — indices
whose entity was destroyed (or whose `T` was removed) by the callback
are *not* skipped.  When such an index is reached, `p->Get(idx)`'s
precondition `Has(idx)` is violated (assert failure / UB, the `none`
result); this theorem covers the executions that stay defined and
shows the visit list is index-for-index the whole snapshot. -/
theorem each_no_skip_amended {α : Type} (t : Nat) (cb : Nat → List (Cmd α))
    (r : Reg α) (out : Reg α × List Nat × List (Nat × List Nat))
    (hwf : RegWF r) (he : each t cb r = some out) :
    out.2.1.map EntityIndex = eachSnapshot t r := by
  unfold each at he
  split at he
  · rename_i hp
    rw [← Option.some.inj he]
    show List.map EntityIndex ([] : List Nat) = eachSnapshot t r
    unfold eachSnapshot
    rw [hp]
    rfl
  · rename_i p hp
    split at he
    · rename_i hsz
      rw [← Option.some.inj he]
      show List.map EntityIndex ([] : List Nat) = eachSnapshot t r
      unfold eachSnapshot
      rw [hp]
      show List.map EntityIndex ([] : List Nat) = p.dense
      rw [List.length_eq_zero.1 hsz]
      rfl
    · rename_i hsz
      have hres := eachGo_visits t cb p.dense r [] [] out
        (fun i hi => hwf.2 _ (poolOf?_mem _ _ _ hp) i hi) he
      rw [hres]
      unfold eachSnapshot
      rw [hp]
      show List.map EntityIndex ([] : List Nat) ++ p.dense = p.dense
      simp

/-- C4 counterexample:  Two live entities (indices 0, 1), both
owning component type 0; the callback destroys entity 1 while entity 0
is being visited.  When the loop reaches snapshot index 1 it is *not*
skipped (1 < generations.size()): `Get(1)` is invoked with `Has(1)`
false, so its assert fires — the model returns `none` instead of the
skip the claim requires. -/
theorem each_skip_cex :
    each 0 (fun id => if id = 0 then [Cmd.cdestroy 1] else [])
      (⟨[0, 1], [0, 0], [], [(0, ⟨[0, 1], [0, 1], [10, 11]⟩)]⟩ : Reg Nat) = none := by
  decide

/-- Witness for the amended C4: a pure callback over the same
two-entity registry visits the whole snapshot `[0, 1]`. -/
theorem each_no_skip_amended_witness :
    RegWF (⟨[0, 1], [0, 0], [], [(0, ⟨[0, 1], [0, 1], [10, 11]⟩)]⟩ : Reg Nat) ∧
      each 0 (fun _ => ([] : List (Cmd Nat)))
        (⟨[0, 1], [0, 0], [], [(0, ⟨[0, 1], [0, 1], [10, 11]⟩)]⟩ : Reg Nat) =
        some (⟨[0, 1], [0, 0], [], [(0, ⟨[0, 1], [0, 1], [10, 11]⟩)]⟩, [0, 1], []) ∧
      ([0, 1].map EntityIndex =
        eachSnapshot 0 (⟨[0, 1], [0, 0], [], [(0, ⟨[0, 1], [0, 1], [10, 11]⟩)]⟩ : Reg Nat)) :=
  ⟨by decide, by decide,
    each_no_skip_amended 0 (fun _ => ([] : List (Cmd Nat)))
      (⟨[0, 1], [0, 0], [], [(0, ⟨[0, 1], [0, 1], [10, 11]⟩)]⟩ : Reg Nat)
      (⟨[0, 1], [0, 0], [], [(0, ⟨[0, 1], [0, 1], [10, 11]⟩)]⟩, [0, 1], [])
      (by decide) (by decide)⟩

/-! Part: C6 — snapshot isolation of Each -/

theorem setPool_poolOf?_eq {α : Type} (t : Nat) (q : Pool α) :
    ∀ ps : List (Nat × Pool α), Reg.poolOf? t (Reg.setPool t q ps) = some q
  | [] => by simp [Reg.setPool, Reg.poolOf?]
  | (k, p) :: rest => by
      unfold Reg.setPool
      by_cases hk : k = t
      · rw [if_pos hk]
        unfold Reg.poolOf?
        rw [if_pos hk]
      · rw [if_neg hk]
        unfold Reg.poolOf?
        rw [if_neg hk]
        exact setPool_poolOf?_eq t q rest

theorem setPool_poolOf?_ne {α : Type} (t t' : Nat) (q : Pool α) (hne : t' ≠ t) :
    ∀ ps : List (Nat × Pool α),
      Reg.poolOf? t' (Reg.setPool t q ps) = Reg.poolOf? t' ps
  | [] => by
      unfold Reg.setPool Reg.poolOf?
      rw [if_neg (fun hEq => hne hEq.symm)]
      rfl
  | (k, p) :: rest => by
      unfold Reg.setPool
      by_cases hk : k = t
      · rw [if_pos hk]
        unfold Reg.poolOf?
        rw [if_neg (by omega), if_neg (by omega)]
      · rw [if_neg hk]
        unfold Reg.poolOf?
        by_cases hk' : k = t'
        · rw [if_pos hk', if_pos hk']
        · rw [if_neg hk', if_neg hk']
          exact setPool_poolOf?_ne t t' q hne rest

theorem mem_setPool {α : Type} (t : Nat) (q : Pool α) :
    ∀ (ps : List (Nat × Pool α)) (tp : Nat × Pool α),
      tp ∈ Reg.setPool t q ps → tp.2 = q ∨ tp ∈ ps
  | [], tp, h => by
      unfold Reg.setPool at h
      rw [List.mem_singleton] at h
      rw [h]
      exact Or.inl rfl
  | (k, p) :: rest, tp, h => by
      unfold Reg.setPool at h
      by_cases hk : k = t
      · rw [if_pos hk, List.mem_cons] at h
        rcases h with h | h
        · rw [h]
          exact Or.inl rfl
        · exact Or.inr (List.mem_cons_of_mem _ h)
      · rw [if_neg hk, List.mem_cons] at h
        rcases h with h | h
        · rw [h]
          exact Or.inr (List.mem_cons_self _ _)
        · rcases mem_setPool t q rest tp h with h1 | h1
          · exact Or.inl h1
          · exact Or.inr (List.mem_cons_of_mem _ h1)

theorem create_pools {α : Type} (r : Reg α) : (Reg.create r).2.pools = r.pools := by
  unfold Reg.create
  cases hfl : r.freeList with
  | nil => rfl
  | cons f fs => rfl

/-- C++ `AddComponent<T0>` on a registry with well-formed pools: all pools
stay well-formed, every existing pool's dense set only grows, and the
emplace target index was *not* in `T0`'s pool (its assert passed). -/
theorem addComponent_pools_facts {α : Type} {t0 id : Nat} {v : α} {rc rc1 : Reg α}
    (hwfp : ∀ tp ∈ rc.pools, Pool.WF tp.2)
    (ha : Reg.addComponent t0 id v rc = some rc1) :
    (∀ tp ∈ rc1.pools, Pool.WF tp.2) ∧
      (∀ t1 p1, Reg.poolOf? t1 rc.pools = some p1 →
        ∃ p1', Reg.poolOf? t1 rc1.pools = some p1' ∧ ∀ x ∈ p1.dense, x ∈ p1'.dense) ∧
      (∀ p0, Reg.poolOf? t0 rc.pools = some p0 → EntityIndex id ∉ p0.dense) := by
  unfold Reg.addComponent at ha
  split at ha
  · exact Option.noConfusion ha
  · split at ha
    · exact Option.noConfusion ha
    · rename_i q hq
      have hwfP : Pool.WF ((Reg.poolOf? t0 rc.pools).getD Pool.empty) := by
        cases hp0 : Reg.poolOf? t0 rc.pools with
        | none => exact Pool.WF.empty
        | some p0 => exact hwfp _ (poolOf?_mem _ _ _ hp0)
      have hem := hwfP.emplace hq
      have hpools : rc1.pools = Reg.setPool t0 q rc.pools := by
        rw [← Option.some.inj ha]
      refine ⟨?_, ?_, ?_⟩
      · intro tp htp
        rw [hpools] at htp
        rcases mem_setPool _ _ _ _ htp with h1 | h1
        · rw [h1]
          exact hem.1
        · exact hwfp _ h1
      · intro t1 p1 hp1
        rw [hpools]
        by_cases ht1 : t1 = t0
        · subst ht1
          refine ⟨q, setPool_poolOf?_eq _ _ _, ?_⟩
          intro x hx
          rw [hem.2.1]
          have hgd : (Reg.poolOf? t1 rc.pools).getD Pool.empty = p1 := by
            rw [hp1]
            rfl
          rw [hgd]
          exact List.mem_append_left _ hx
        · refine ⟨p1, ?_, fun x hx => hx⟩
          rw [setPool_poolOf?_ne _ _ _ ht1]
          exact hp1
      · intro p0 hp0
        have hgd : (Reg.poolOf? t0 rc.pools).getD Pool.empty = p0 := by
          rw [hp0]
          rfl
        rw [← hgd]
        exact hem.2.2.2

/-- C++ `attachAll` (the chain of `AddComponent` calls of one `ccreate`):
pools stay well-formed and only grow, and every attached type's pool
did not hold `EntityIndex id` when the chain started. -/
theorem attachAll_facts {α : Type} :
    ∀ (comps : List (Nat × α)) (id : Nat) (rc r1 : Reg α),
      (∀ tp ∈ rc.pools, Pool.WF tp.2) →
      attachAll comps id rc = some r1 →
      (∀ tp ∈ r1.pools, Pool.WF tp.2) ∧
        (∀ t1 p1, Reg.poolOf? t1 rc.pools = some p1 →
          ∃ p1', Reg.poolOf? t1 r1.pools = some p1' ∧ ∀ x ∈ p1.dense, x ∈ p1'.dense) ∧
        (∀ t1, t1 ∈ comps.map Prod.fst →
          ∀ p1, Reg.poolOf? t1 rc.pools = some p1 → EntityIndex id ∉ p1.dense)
  | [], id, rc, r1, hwfp, h => by
      rw [← Option.some.inj h]
      refine ⟨hwfp, fun t1 p1 hp1 => ⟨p1, hp1, fun x hx => hx⟩, ?_⟩
      intro t1 ht1
      simp at ht1
  | (t0, v) :: rest, id, rc, r1, hwfp, h => by
      simp only [attachAll] at h
      split at h
      · exact Option.noConfusion h
      · rename_i r2 ha
        have hstep := addComponent_pools_facts hwfp ha
        have hrest := attachAll_facts rest id r2 r1 hstep.1 h
        refine ⟨hrest.1, ?_, ?_⟩
        · intro t1 p1 hp1
          rcases hstep.2.1 t1 p1 hp1 with ⟨p2, hp2, hsub2⟩
          rcases hrest.2.1 t1 p2 hp2 with ⟨p3, hp3, hsub3⟩
          exact ⟨p3, hp3, fun x hx => hsub3 x (hsub2 x hx)⟩
        · intro t1 ht1 p1 hp1
          rw [List.map_cons, List.mem_cons] at ht1
          rcases ht1 with ht1 | ht1
          · subst ht1
            exact hstep.2.2 p1 hp1
          · rcases hstep.2.1 t1 p1 hp1 with ⟨p2, hp2, hsub2⟩
            intro hmem
            exact hrest.2.2 t1 ht1 p2 hp2 (hsub2 _ hmem)

/-- One `ccreate` command: pools stay well-formed and grow, and the
created entity's masked index was absent from the pool of every type
it attached (at command start). -/
theorem runCmd_create_facts {α : Type} {comps : List (Nat × α)} {rc : Reg α}
    {out : Reg α × List (Nat × List Nat)}
    (hwfp : ∀ tp ∈ rc.pools, Pool.WF tp.2)
    (h : runCmd (Cmd.ccreate comps) rc = some out) :
    (∀ tp ∈ out.1.pools, Pool.WF tp.2) ∧
      (∀ t1 p1, Reg.poolOf? t1 rc.pools = some p1 →
        ∃ p1', Reg.poolOf? t1 out.1.pools = some p1' ∧ ∀ x ∈ p1.dense, x ∈ p1'.dense) ∧
      (∀ c ∈ out.2, ∀ t1 ∈ c.2,
        ∀ p1, Reg.poolOf? t1 rc.pools = some p1 → EntityIndex c.1 ∉ p1.dense) := by
  simp only [runCmd] at h
  split at h
  · exact Option.noConfusion h
  · rename_i r2 ha
    have hwfp2 : ∀ tp ∈ (Reg.create rc).2.pools, Pool.WF tp.2 := by
      rw [create_pools]
      exact hwfp
  -- attachAll runs on the post-create state, whose pools equal rc's
    have hfacts := attachAll_facts comps (Reg.create rc).1 (Reg.create rc).2 r2 hwfp2 ha
    have hout1 : out.1 = r2 := by
      rw [← Option.some.inj h]
    have hout2 : out.2 = [((Reg.create rc).1, comps.map Prod.fst)] := by
      rw [← Option.some.inj h]
    rw [hout1, hout2]
    refine ⟨hfacts.1, ?_, ?_⟩
    · intro t1 p1 hp1
      apply hfacts.2.1
      rw [create_pools]
      exact hp1
    · intro c hc t1 ht1 p1 hp1
      rw [List.mem_singleton] at hc
      rw [hc]
      rw [hc] at ht1
      apply hfacts.2.2 t1 ht1
      rw [create_pools]
      exact hp1

/-- A callback consisting only of `ccreate` commands: pools stay
well-formed and grow, and every created entity that attached `t1` has
a masked index absent from `t1`'s pool at callback start. -/
theorem runCmds_create_facts {α : Type} :
    ∀ (cs : List (Cmd α)) (rc : Reg α) (out : Reg α × List (Nat × List Nat)),
      (∀ c ∈ cs, ∃ comps, c = Cmd.ccreate comps) →
      (∀ tp ∈ rc.pools, Pool.WF tp.2) →
      runCmds cs rc = some out →
      (∀ tp ∈ out.1.pools, Pool.WF tp.2) ∧
        (∀ t1 p1, Reg.poolOf? t1 rc.pools = some p1 →
          ∃ p1', Reg.poolOf? t1 out.1.pools = some p1' ∧ ∀ x ∈ p1.dense, x ∈ p1'.dense) ∧
        (∀ c ∈ out.2, ∀ t1 ∈ c.2,
          ∀ p1, Reg.poolOf? t1 rc.pools = some p1 → EntityIndex c.1 ∉ p1.dense)
  | [], rc, out, _, hwfp, h => by
      rw [← Option.some.inj h]
      refine ⟨hwfp, fun t1 p1 hp1 => ⟨p1, hp1, fun x hx => hx⟩, ?_⟩
      intro c hc
      simp at hc
  | c :: cs, rc, out, honly, hwfp, h => by
      simp only [runCmds] at h
      split at h
      · exact Option.noConfusion h
      · rename_i ra na h1
        split at h
        · exact Option.noConfusion h
        · rename_i rb nb h2
          rcases honly c (List.mem_cons_self _ _) with ⟨comps, hcc⟩
          subst hcc
          have hstep := runCmd_create_facts hwfp h1
          have hrest := runCmds_create_facts cs ra (rb, nb)
            (fun c hc => honly c (List.mem_cons_of_mem _ hc)) hstep.1 h2
          have hout1 : out.1 = rb := by
            rw [← Option.some.inj h]
          have hout2 : out.2 = na ++ nb := by
            rw [← Option.some.inj h]
          rw [hout1, hout2]
          refine ⟨hrest.1, ?_, ?_⟩
          · intro t1 p1 hp1
            rcases hstep.2.1 t1 p1 hp1 with ⟨p2, hp2, hsub2⟩
            rcases hrest.2.1 t1 p2 hp2 with ⟨p3, hp3, hsub3⟩
            exact ⟨p3, hp3, fun x hx => hsub3 x (hsub2 x hx)⟩
          · intro cr hcr t1 ht1 p1 hp1
            rw [List.mem_append] at hcr
            rcases hcr with hcr | hcr
            · exact hstep.2.2 cr hcr t1 ht1 p1 hp1
            · rcases hstep.2.1 t1 p1 hp1 with ⟨p2, hp2, hsub2⟩
              intro hmem
              exact hrest.2.2 cr hcr t1 ht1 p2 hp2 (hsub2 _ hmem)

/-- The isolation invariant through the `Each` loop: with a
creation-only callback, an entity created with component `t` attached
can never collide (as a handle) with any visit, because its masked
index is outside the fixed snapshot set `S`. -/
theorem eachGo_isolation {α : Type} (t : Nat) (cb : Nat → List (Cmd α)) (S : List Nat)
    (hcb : ∀ id, ∀ c ∈ cb id, ∃ comps, c = Cmd.ccreate comps)
    (hS : ∀ s ∈ S, s < 1048576) :
    ∀ (rem : List Nat) (rc : Reg α) (vis : List Nat)
      (created : List (Nat × List Nat)) (out : Reg α × List Nat × List (Nat × List Nat)),
      (∀ tp ∈ rc.pools, Pool.WF tp.2) →
      (∃ pc, Reg.poolOf? t rc.pools = some pc ∧ ∀ s ∈ S, s ∈ pc.dense) →
      (∀ v ∈ vis, EntityIndex v ∈ S) →
      (∀ i ∈ rem, i ∈ S) →
      (∀ c ∈ created, t ∈ c.2 → EntityIndex c.1 ∉ S) →
      eachGo t cb rem rc vis created = some out →
      ∀ c ∈ out.2.2, t ∈ c.2 → c.1 ∉ out.2.1
  | [], rc, vis, created, out, _, _, hvis, _, hcre, h => by
      rw [← Option.some.inj h]
      intro c hc ht hmem
      exact hcre c hc ht (hvis c.1 hmem)
  | idx :: rest, rc, vis, created, out, hwfp, hpool, hvis, hrem, hcre, h => by
      simp only [eachGo] at h
      split at h
      · exact eachGo_isolation t cb S hcb hS rest rc vis created out hwfp hpool hvis
          (fun i hi => hrem i (List.mem_cons_of_mem _ hi)) hcre h
      · split at h
        · exact Option.noConfusion h
        · rename_i p hp
          split at h
          · exact Option.noConfusion h
          · rename_i hhas
            split at h
            · exact Option.noConfusion h
            · rename_i r1 newc hrun
              rcases hpool with ⟨pc, hpc, hSsub⟩
              have hfacts := runCmds_create_facts _ rc (r1, newc)
                (hcb (MakeEntity idx (rc.generations.getD idx 0))) hwfp hrun
              have hidxS : idx ∈ S := hrem idx (List.mem_cons_self _ _)
              refine eachGo_isolation t cb S hcb hS rest r1
                (vis ++ [MakeEntity idx (rc.generations.getD idx 0)]) (created ++ newc) out
                hfacts.1 ?_ ?_ (fun i hi => hrem i (List.mem_cons_of_mem _ hi)) ?_ h
              · rcases hfacts.2.1 t pc hpc with ⟨pc', hpc', hsub⟩
                exact ⟨pc', hpc', fun s hs => hsub s (hSsub s hs)⟩
              · intro v hv
                rw [List.mem_append] at hv
                rcases hv with hv | hv
                · exact hvis v hv
                · rw [List.mem_singleton] at hv
                  rw [hv, EntityIndex_MakeEntity, Nat.mod_eq_of_lt (hS idx hidxS)]
                  exact hidxS
              · intro c hc ht
                rw [List.mem_append] at hc
                rcases hc with hc | hc
                · exact hcre c hc ht
                · intro hmem
                  exact hfacts.2.2 c hc t ht pc hpc (hSsub _ hmem)

/-- C6: (*Snapshot isolation*).  If the callback of an in-progress
`Each<T>` only creates entities and attaches components to them (no
destroys or removes, matching the claim's scenario), then no entity it
creates *with component `T` attached* is visited in the same `Each<T>`
call: the `Emplace` assert guarantees the new entity's masked slot
index is outside `T`'s pool, hence outside the snapshot. -/
theorem each_snapshot_isolation {α : Type} (t : Nat) (cb : Nat → List (Cmd α))
    (r : Reg α) (out : Reg α × List Nat × List (Nat × List Nat))
    (hwf : RegWF r)
    (hcb : ∀ id, ∀ c ∈ cb id, ∃ comps, c = Cmd.ccreate comps)
    (he : each t cb r = some out) :
    ∀ c ∈ out.2.2, t ∈ c.2 → c.1 ∉ out.2.1 := by
  unfold each at he
  split at he
  · rw [← Option.some.inj he]
    intro c hc
    simp at hc
  · rename_i p hp
    split at he
    · rw [← Option.some.inj he]
      intro c hc
      simp at hc
    · exact eachGo_isolation t cb p.dense hcb
        (fun s hs => ((hwf.2 _ (poolOf?_mem _ _ _ hp)) s hs).1)
        p.dense r [] [] out hwf.1
        ⟨p, hp, fun s hs => hs⟩
        (fun v hv => absurd hv (List.not_mem_nil _))
        (fun i hi => hi)
        (fun c hc => absurd hc (List.not_mem_nil _))
        he

/-- Witness for C6: one entity owning type 0; the callback creates a
fresh entity (slot 1) and attaches type 0 to it.  The new handle `1`
is created but never visited (visits are just `[0]`). -/
theorem each_snapshot_isolation_witness :
    RegWF (⟨[0], [0], [], [(0, ⟨[0], [0], [10]⟩)]⟩ : Reg Nat) ∧
      each 0 (fun _ => [Cmd.ccreate [(0, 99)]])
        (⟨[0], [0], [], [(0, ⟨[0], [0], [10]⟩)]⟩ : Reg Nat) =
        some (⟨[0, 1], [0, 0], [], [(0, ⟨[0, 1], [0, 1], [10, 99]⟩)]⟩, [0], [(1, [0])]) ∧
      (∀ c ∈ [((1 : Nat), [(0 : Nat)])], 0 ∈ c.2 → c.1 ∉ [(0 : Nat)]) :=
  ⟨by decide, by decide,
    each_snapshot_isolation 0 (fun _ => [Cmd.ccreate [(0, 99)]])
      (⟨[0], [0], [], [(0, ⟨[0], [0], [10]⟩)]⟩ : Reg Nat)
      (⟨[0, 1], [0, 0], [], [(0, ⟨[0, 1], [0, 1], [10, 99]⟩)]⟩, [0], [(1, [0])])
      (by decide)
      (fun id c hc => ⟨[(0, 99)], by rw [List.mem_singleton] at hc; exact hc⟩)
      (by decide)⟩

end Hotones
